import Mathlib

/-!
Verification of the Reply Generation & Multi-Scope Deduplication Engine of the
moltbook-daemon repository.  The definitions below are a shallow embedding of
`core/comment_reply_policy.py` and of the per-comment deduplication sequence of
`actions/comment_post.py` (lines 507-583).  Python strings are Lean `String`s
(lists of unicode scalar values), Python `set`s of hashes are Lean `List String`
consulted only through membership, and `hashlib.sha256(...).hexdigest()` is the
executable SHA-256 implemented here over byte lists (`Nat` values < 256).
Character-class operations (`str.lower`, `\s`, `[A-Za-z0-9]`, `str.isdigit`)
are modelled on the ASCII range, which is exact for the regexes involved
(they are ASCII-only character classes) and for every string the engine builds.
-/

set_option maxRecDepth 8000

namespace Moltbook

/-! ### Basic character and string helpers (Python `str` semantics) -/

/-- Python `\s` / `str.strip()` whitespace, ASCII range:
space, tab, newline, carriage return, vertical tab, form feed. -/
def isSpaceCh (c : Char) : Bool :=
  c.toNat = 32 || c.toNat = 9 || c.toNat = 10 || c.toNat = 13 ||
  c.toNat = 11 || c.toNat = 12

/-- Python `str.lower()` on the ASCII range (`A`-`Z` map to `a`-`z`). -/
def lowerChar (c : Char) : Char :=
  if 65 ≤ c.toNat ∧ c.toNat ≤ 90 then Char.ofNat (c.toNat + 32) else c

def lowerList (l : List Char) : List Char := l.map lowerChar

def lowerStr (s : String) : String := ⟨lowerList s.data⟩

/-- Python `str.strip()` on a character list: drop whitespace at both ends. -/
def stripList (l : List Char) : List Char :=
  ((l.dropWhile isSpaceCh).reverse.dropWhile isSpaceCh).reverse

def pyStrip (s : String) : String := ⟨stripList s.data⟩

/-- Python `re.sub(r"\s+", " ", t)`: every maximal whitespace run becomes one
space.  The boolean records whether the previous character was whitespace. -/
def collapseAux : Bool → List Char → List Char
  | _, [] => []
  | prevSp, c :: rest =>
    if isSpaceCh c then
      if prevSp then collapseAux true rest else ' ' :: collapseAux true rest
    else c :: collapseAux false rest

def collapseWS (l : List Char) : List Char := collapseAux false l

/-- Python substring prefix test `t.startswith(sub)` on lists. -/
def isPreList : List Char → List Char → Bool
  | [], _ => true
  | _ :: _, [] => false
  | a :: as, b :: bs => a = b && isPreList as bs

/-- Python `sub in hay` substring test on lists. -/
def containsList (hay sub : List Char) : Bool :=
  match hay with
  | [] => isPreList sub []
  | _ :: rest => isPreList sub hay || containsList rest sub

/-- Python `sub in hay` on strings. -/
def containsStr (hay sub : String) : Bool := containsList hay.data sub.data

/-! ### UTF-8 and SHA-256 (`hashlib.sha256(x.encode("utf-8")).hexdigest()`) -/

/-- UTF-8 encoding of one unicode scalar value, as bytes. -/
def utf8Char (c : Char) : List Nat :=
  let n := c.toNat
  if n < 128 then [n]
  else if n < 2048 then [192 + n / 64, 128 + n % 64]
  else if n < 65536 then [224 + n / 4096, 128 + (n / 64) % 64, 128 + n % 64]
  else [240 + n / 262144, 128 + (n / 4096) % 64, 128 + (n / 64) % 64, 128 + n % 64]

/-- `s.encode("utf-8")` as a byte list. -/
def utf8Bytes (s : String) : List Nat :=
  s.data.foldr (fun c acc => utf8Char c ++ acc) []

/-- 2^32, the modulus of SHA-256 word arithmetic. -/
def M32 : Nat := 4294967296

/-- Rotate a 32-bit word right by `n` (0 < n < 32). -/
def rotr (n x : Nat) : Nat := ((x >>> n) ||| (x <<< (32 - n))) % M32

def bigSigma0 (x : Nat) : Nat := rotr 2 x ^^^ rotr 13 x ^^^ rotr 22 x
def bigSigma1 (x : Nat) : Nat := rotr 6 x ^^^ rotr 11 x ^^^ rotr 25 x
def smallSigma0 (x : Nat) : Nat := rotr 7 x ^^^ rotr 18 x ^^^ (x >>> 3)
def smallSigma1 (x : Nat) : Nat := rotr 17 x ^^^ rotr 19 x ^^^ (x >>> 10)
def chFun (x y z : Nat) : Nat := (x &&& y) ^^^ ((x ^^^ 4294967295) &&& z)
def majFun (x y z : Nat) : Nat := (x &&& y) ^^^ (x &&& z) ^^^ (y &&& z)

def sha256K : List Nat :=
  [1116352408, 1899447441, 3049323471, 3921009573, 961987163,
   1508970993, 2453635748, 2870763221, 3624381080, 310598401,
   607225278, 1426881987, 1925078388, 2162078206, 2614888103,
   3248222580, 3835390401, 4022224774, 264347078, 604807628,
   770255983, 1249150122, 1555081692, 1996064986, 2554220882,
   2821834349, 2952996808, 3210313671, 3336571891, 3584528711,
   113926993, 338241895, 666307205, 773529912, 1294757372,
   1396182291, 1695183700, 1986661051, 2177026350, 2456956037,
   2730485921, 2820302411, 3259730800, 3345764771, 3516065817,
   3600352804, 4094571909, 275423344, 430227734, 506948616,
   659060556, 883997877, 958139571, 1322822218, 1537002063,
   1747873779, 1955562222, 2024104815, 2227730452, 2361852424,
   2428436474, 2756734187, 3204031479, 3329325298]

/-- SHA-256 padding: append `0x80`, zeros to 56 mod 64, then the bit length
as 8 big-endian bytes. -/
def padMessage (msg : List Nat) : List Nat :=
  let len := msg.length
  let z := (55 + 64 - len % 64) % 64
  let bitLen := 8 * len
  msg ++ [128] ++ List.replicate z 0 ++
    (List.range 8).map (fun i => (bitLen >>> (8 * (7 - i))) % 256)

/-- Big-endian 4-byte groups into 32-bit words. -/
def bytesToWords : List Nat → List Nat
  | b0 :: b1 :: b2 :: b3 :: rest =>
    (((b0 * 256 + b1) * 256 + b2) * 256 + b3) :: bytesToWords rest
  | _ => []

/-- Split the padded message into 64-byte blocks (fuel = list length). -/
def chunksAux : Nat → List Nat → List (List Nat)
  | 0, _ => []
  | _, [] => []
  | fuel + 1, l => l.take 64 :: chunksAux fuel (l.drop 64)

def chunks64 (l : List Nat) : List (List Nat) := chunksAux l.length l

/-- Message-schedule extension: `acc` holds the words produced so far in
reverse order, so `acc[1]` is w[i-2], `acc[6]` is w[i-7], `acc[14]` is
w[i-15] and `acc[15]` is w[i-16]. -/
def scheduleAux : Nat → List Nat → List Nat
  | 0, acc => acc
  | n + 1, acc =>
    let w := (smallSigma1 (acc.getD 1 0) + acc.getD 6 0 +
              smallSigma0 (acc.getD 14 0) + acc.getD 15 0) % M32
    scheduleAux n (w :: acc)

/-- The 64-word message schedule of one block. -/
def schedule (ws : List Nat) : List Nat := (scheduleAux 48 ws.reverse).reverse

structure Sha256State where
  a : Nat
  b : Nat
  c : Nat
  d : Nat
  e : Nat
  f : Nat
  g : Nat
  h : Nat

def sha256InitState : Sha256State :=
  ⟨1779033703, 3144134277, 1013904242, 2773480762,
   1359893119, 2600822924, 528734635, 1541459225⟩

def sha256Round (st : Sha256State) (kw : Nat × Nat) : Sha256State :=
  let t1 := (st.h + bigSigma1 st.e + chFun st.e st.f st.g + kw.1 + kw.2) % M32
  let t2 := (bigSigma0 st.a + majFun st.a st.b st.c) % M32
  ⟨(t1 + t2) % M32, st.a, st.b, st.c, (st.d + t1) % M32, st.e, st.f, st.g⟩

def compressBlock (st : Sha256State) (block : List Nat) : Sha256State :=
  let ws := schedule (bytesToWords block)
  let r := (sha256K.zip ws).foldl sha256Round st
  ⟨(st.a + r.a) % M32, (st.b + r.b) % M32, (st.c + r.c) % M32,
   (st.d + r.d) % M32, (st.e + r.e) % M32, (st.f + r.f) % M32,
   (st.g + r.g) % M32, (st.h + r.h) % M32⟩

def hexDigitCh (n : Nat) : Char := "0123456789abcdef".data.getD n '0'

/-- Lowercase hex of one 32-bit word, big-endian nibbles. -/
def wordHex (w : Nat) : List Char :=
  (List.range 8).map (fun i => hexDigitCh ((w >>> (4 * (7 - i))) % 16))

/-- `hashlib.sha256(bytes).hexdigest()`. -/
def sha256HexOfBytes (msg : List Nat) : String :=
  let st := (chunks64 (padMessage msg)).foldl compressBlock sha256InitState
  ⟨wordHex st.a ++ wordHex st.b ++ wordHex st.c ++ wordHex st.d ++
   wordHex st.e ++ wordHex st.f ++ wordHex st.g ++ wordHex st.h⟩

/-- `hashlib.sha256(s.encode("utf-8")).hexdigest()`. -/
def sha256HexStr (s : String) : String := sha256HexOfBytes (utf8Bytes s)

/-- FIPS 180-4 test vector, checked by the kernel: validates the SHA-256
implementation above. -/
theorem sha256_known_vector :
    sha256HexStr "abc" =
      "ba7816bf8f01cfea414140de5dae2223b00361a396177a9cb410ff61f20015ad" := by
  decide

/-! ### `core/comment_reply_policy.py` -/

/-- `CommentContext` (comment_reply_policy.py lines 24-30). -/
structure CommentContext where
  post_id : String
  comment_id : String
  author_name : String
  comment_text : String
  created_at : Option String

/-- `normalize_for_hash` (lines 45-49): strip, lower, collapse whitespace. -/
def normalize_for_hash (text : String) : String :=
  ⟨collapseWS (lowerList (stripList text.data))⟩

/-- `reply_hash` (lines 52-55): SHA-256 hex digest of the normalized text. -/
def reply_hash (text : String) : String :=
  sha256HexStr (normalize_for_hash text)

/-- Value of a lowercase hex digit (the digests above use only `0-9a-f`). -/
def hexVal (c : Char) : Nat :=
  if 97 ≤ c.toNat then c.toNat - 87 else c.toNat - 48

/-- Python `int(h, 16)` for a lowercase hex digit list. -/
def hexToNat (l : List Char) : Nat :=
  l.foldl (fun acc c => acc * 16 + hexVal c) 0

/-- `_stable_pick` (lines 37-42): empty pool gives `""`, else index the pool
by the first 8 hex digits of the seed's SHA-256, modulo the pool size. -/
def _stable_pick (options : List String) (seed : String) : String :=
  if options.isEmpty then ""
  else
    let h := sha256HexStr seed
    let idx := hexToNat (h.data.take 8) % options.length
    options.getD idx ""

/-- Python `\S` (non-whitespace). -/
def isNonSpace (c : Char) : Bool := !isSpaceCh c

/-- Case-insensitive literal prefix test: `pat` is already lowercase, the
haystack character is lowered before comparing (models `re.IGNORECASE`). -/
def ciPreList : List Char → List Char → Bool
  | [], _ => true
  | _ :: _, [] => false
  | p :: ps, c :: cs => lowerChar c = p && ciPreList ps cs

/-- Length of the match of `_URL_RE = https?://\S+` (with `re.IGNORECASE`)
anchored at the head of `l`, if any.  The regex engine first tries the
greedy `s?`, and `\S+` is greedy, so the match runs to the next whitespace;
each alternative needs at least one non-space character after `://`. -/
def urlMatchLen (l : List Char) : Option Nat :=
  let tryPat : String → Option Nat := fun pat =>
    if ciPreList pat.data l then
      let k := ((l.drop pat.length).takeWhile isNonSpace).length
      if 0 < k then some (pat.length + k) else none
    else none
  match tryPat "https://" with
  | some n => some n
  | none => tryPat "http://"

def linkOmitted : List Char := "(link omitted)".data

/-- Left-to-right scan of `_URL_RE.sub("(link omitted)", text)`; the fuel is
the input length, and at least one character is consumed per step, so the
fuel never runs out. -/
def redactAux : Nat → List Char → List Char
  | 0, l => l
  | _, [] => []
  | fuel + 1, c :: rest =>
    match urlMatchLen (c :: rest) with
    | some n => linkOmitted ++ redactAux fuel ((c :: rest).drop n)
    | none => c :: redactAux fuel rest

/-- `redact_urls` (lines 58-59). -/
def redact_urls (s : String) : String := ⟨redactAux s.data.length s.data⟩

/-- `[A-Za-z0-9]` (ASCII, as in the Python regex). -/
def isAlnumCh (c : Char) : Bool :=
  (65 ≤ c.toNat && c.toNat ≤ 90) || (97 ≤ c.toNat && c.toNat ≤ 122) ||
    (48 ≤ c.toNat && c.toNat ≤ 57)

/-- `[A-Za-z0-9_\-]`, the continuation class of `_WORD_RE` (95 is `_`,
45 is `-`). -/
def isWordCh (c : Char) : Bool := isAlnumCh c || c.toNat = 95 || c.toNat = 45

/-- `_WORD_RE.findall` for `[A-Za-z0-9][A-Za-z0-9_\-]{2,}`: at each position,
an alphanumeric character followed by a greedy run of at least two word
characters yields a match (first char plus the whole run); scanning resumes
after the match.  Fuel is the input length, enough since every step consumes
at least one character. -/
def findWordsAux : Nat → List Char → List (List Char)
  | 0, _ => []
  | _, [] => []
  | fuel + 1, c :: rest =>
    if isAlnumCh c then
      let run := rest.takeWhile isWordCh
      if 2 ≤ run.length then
        (c :: run) :: findWordsAux fuel (rest.drop run.length)
      else findWordsAux fuel rest
    else findWordsAux fuel rest

def findWords (l : List Char) : List (List Char) := findWordsAux l.length l

/-- The stoplist of `extract_keywords` (lines 77-102). -/
def stopWords : List String :=
  ["this", "that", "with", "from", "have", "your", "youre", "about", "what",
   "when", "where", "which", "would", "could", "should", "thanks", "thank",
   "nice", "cool", "good", "great", "bad", "lol", "lmao"]

/-- The banned list of `extract_keywords` (lines 105-115). -/
def bannedWords : List String :=
  ["stupid", "idiot", "trash", "garbage", "worst", "hate", "dumb", "shut",
   "kys"]

def isDigitCh (c : Char) : Bool := 48 ≤ c.toNat && c.toNat ≤ 57

/-- Python `w.isdigit()`: nonempty and all digits (tokens here are ASCII). -/
def pyIsDigit (s : String) : Bool := s ≠ "" && s.data.all isDigitCh

/-- The accumulation loop of `extract_keywords` (lines 117-129): skip stop,
banned, numeric and duplicate words; append otherwise; stop once the
accumulator has reached `max_words` (checked after appending). -/
def keywordLoop (maxW : Nat) : List String → List String → List String
  | [], uniq => uniq
  | w :: ws, uniq =>
    if stopWords.contains w then keywordLoop maxW ws uniq
    else if bannedWords.contains w then keywordLoop maxW ws uniq
    else if pyIsDigit w then keywordLoop maxW ws uniq
    else if uniq.contains w then keywordLoop maxW ws uniq
    else
      let uniq2 := uniq ++ [w]
      if maxW ≤ uniq2.length then uniq2 else keywordLoop maxW ws uniq2

/-- `extract_keywords` (lines 62-130). -/
def extract_keywords (text : String) (max_words : Nat) : List String :=
  if text = "" then []
  else
    let cleaned := redact_urls text
    let words := (findWords cleaned.data).map (fun w => (⟨lowerList w⟩ : String))
    keywordLoop max_words words []

/-- Whether any of the lowercase patterns occurs in `t` (`any(x in t ...)`). -/
def anyIn (t : String) (pats : List String) : Bool :=
  pats.any (fun p => containsStr t p)

def questionPats : List String :=
  ["how do", "how to", "what is", "why", "where", "help"]
def bugPats : List String :=
  ["error", "exception", "crash", "broken", "doesn\x27t work", "doesnt work",
   "bug"]
def praisePats : List String :=
  ["love", "awesome", "great", "cool", "nice", "sick", "amazing"]
def hostilePats : List String :=
  ["stupid", "idiot", "trash", "garbage", "worst", "hate"]
def feedbackPats : List String :=
  ["suggest", "maybe", "consider", "would be nice", "feature"]

/-- `classify_intent` (lines 133-198): lowercase the text, then a fixed
cascade — empty, question, bug, praise, hostile, feedback, neutral. -/
def classify_intent (text : String) : String :=
  let t := lowerStr text
  if pyStrip t = "" then "empty"
  else if containsStr t "?" || anyIn t questionPats then "question"
  else if anyIn t bugPats then "bug"
  else if anyIn t praisePats then "praise"
  else if anyIn t hostilePats then "hostile"
  else if anyIn t feedbackPats then "feedback"
  else "neutral"

/-- `choose_tone` (lines 201-216). -/
def choose_tone (intent : String) : String :=
  if intent = "hostile" then "calm"
  else if intent = "bug" then "helpful"
  else if intent = "question" then "helpful"
  else if intent = "praise" then "warm"
  else if intent = "feedback" then "builder"
  else if intent = "empty" then "neutral"
  else "neutral"

/-- `d.split("/")` on character lists (keeps empty segments). -/
def splitSlash : List Char → List (List Char)
  | [] => [[]]
  | c :: rest =>
    let r := splitSlash rest
    if c = '/' then [] :: r
    else
      match r with
      | h :: t => (c :: h) :: t
      | [] => [[c]]

/-- `Path(project_dir).name` under POSIX path semantics: last path component,
with empty and `.` segments dropped (pathlib normalizes them away); `..` is
kept, as pathlib does. -/
def pathName (d : String) : String :=
  ⟨((splitSlash d.data).filter
      (fun s => s ≠ [] && s ≠ ['.'])).getLastD []⟩

/-- `_project_name` (lines 353-360). -/
def _project_name (project_dir : Option String) : String :=
  match project_dir with
  | none => "CatGame"
  | some d => let n := pathName d; if n = "" then "CatGame" else n

/-- One `(relative_path, line_number, line_text)` hit of `search_project_dir`.
That function reads the local filesystem, so its result is supplied to the
engine as an input here — the spec (section 6) treats the project-directory
scan as an external collaborator whose at-most-two pointers are inputs. -/
abbrev SearchHit := String × Nat × String

/-- The file-deduplication loop of `_reference_hint` (lines 383-389): keep
the first hit per relative path, stopping at two files. -/
def dedupHitFiles : List SearchHit → List (String × Nat) → List (String × Nat)
  | [], acc => acc
  | (rel, ln, _) :: rest, acc =>
    if acc.any (fun f => f.1 = rel) then dedupHitFiles rest acc
    else
      let acc2 := acc ++ [(rel, ln)]
      if 2 ≤ acc2.length then acc2 else dedupHitFiles rest acc2

/-- `_reference_hint` (lines 363-402), with the filesystem search result
passed in as `hits` (it is `[]` whenever `project_dir` is unset). -/
def _reference_hint (intent : String) (keywords : List String)
    (hits : List SearchHit) : String :=
  if !(intent = "question" || intent = "bug" || intent = "feedback") then ""
  else if keywords.isEmpty then ""
  else if hits.isEmpty then ""
  else
    match dedupHitFiles hits [] with
    | [] => ""
    | [(rel, ln)] =>
      "(I found related bits in `" ++ rel ++ "` around line " ++ toString ln ++ ".)"
    | (rel1, ln1) :: (rel2, ln2) :: _ =>
      "(I found related bits in `" ++ rel1 ++ "` around line " ++ toString ln1 ++
        " and `" ++ rel2 ++ "` around line " ++ toString ln2 ++ ".)"

/-- `_persona_allows_dry_humor` (lines 405-406). -/
def _persona_allows_dry_humor (persona_text : String) : Bool :=
  containsStr (lowerStr persona_text) "dry humor"

/-! The phrase pools of `generate_reply_text` (lines 436-608), verbatim from
the source f-strings. -/

def humorPool : List String :=
  ["I’ll poke at it and report back.",
   "I’ll go spelunking in the repo for this.",
   "I’ll sanity-check it end-to-end."]

/-- `openers.get(tone, openers["neutral"])` (lines 449-476). -/
def openersFor (tone author project : String) : List String :=
  if tone = "warm" then
    ["Thanks " ++ author ++ " — appreciate you checking out " ++ project ++ ".",
     "Hey " ++ author ++ ", glad you’re following along with " ++ project ++ "."]
  else if tone = "helpful" then
    ["Good callout, " ++ author ++ ".",
     "Thanks " ++ author ++ " — that’s a solid question."]
  else if tone = "builder" then
    ["Fair feedback, " ++ author ++ ".",
     "That’s helpful input, " ++ author ++ "."]
  else if tone = "calm" then
    ["I hear you, " ++ author ++ ".",
     "Got it, " ++ author ++ "."]
  else
    ["Thanks " ++ author ++ ".",
     "Appreciate it, " ++ author ++ "."]

def praiseMidPool : List String :=
  ["I’m iterating quickly and sharing progress as things land.",
   "I’m polishing the rough edges and posting updates as I go."]

def praiseAskPool (topic : String) : List String :=
  ["If there’s a feature you want next around `" ++ topic ++ "`, tell me.",
   "If you’ve got a wishlist item, toss it my way."]

def questionMidPool (topic : String) : List String :=
  ["On `" ++ topic ++ "`: I’ll double-check the repo and share the precise steps/entry point.",
   "Re `" ++ topic ++ "`: I’ll double-check the latest CatGame code/docs and answer precisely."]

def questionAskPool : List String :=
  ["What’s the end goal you’re trying to achieve?",
   "What platform/tooling are you using (Unity/Godot/other)?"]

def bugMidPool (topic : String) : List String :=
  ["If you can share the minimal repro steps around `" ++ topic ++ "`, I can chase it down.",
   "If you can share the exact steps + environment, I can reproduce and patch it."]

def bugAskPool : List String :=
  ["What were you doing right before it happened?",
   "Any error text (sanitized) or screenshot of the symptom?"]

def feedbackMidPool (topic : String) : List String :=
  ["I can see why `" ++ topic ++ "` could feel rough right now.",
   "That’s a reasonable ask — the current behavior is a bit raw."]

def feedbackAskPool : List String :=
  ["If you tell me what ‘good’ looks like for your workflow, I’ll aim for that.",
   "If you have a preferred UX, describe it and I’ll match it."]

def hostileMidPool : List String :=
  ["If you’ve got specific technical feedback, I’m happy to address it.",
   "If you can make it concrete (what failed / what you expected), I can fix it."]

def hostileClosePool (project : String) : List String :=
  ["Either way, I’m going to keep building " ++ project ++ ".",
   "I’m going to keep iterating and posting updates."]

def emptyAskPool : List String :=
  ["What were you curious about?",
   "What part should I clarify — gameplay, tech, or roadmap?"]

def neutralMidPool (topic : String) : List String :=
  ["If you meant `" ++ topic ++ "` specifically, tell me what you’re aiming for and I’ll respond with details.",
   "If there’s a specific edge case you care about, I’ll prioritize it."]

/-- `" ".join(parts)`: the parts separated by single spaces. -/
def joinWithSpace : List String → String
  | [] => ""
  | [p] => p
  | p :: q :: rest => p ++ " " ++ joinWithSpace (q :: rest)

/-- `" ".join(p for p in parts if p)`. -/
def joinSp (parts : List String) : String :=
  joinWithSpace (parts.filter (fun p => p ≠ ""))

/-- `" ".join(parts)` without the emptiness filter (hostile/empty branches). -/
def joinSpAll (parts : List String) : String :=
  joinWithSpace parts

/-- `generate_reply_text` (lines 409-608).  `searchHits` is the result the
`search_project_dir` collaborator would return for `keywords[:2]` (always
`[]` when `project_dir` is unset). -/
def generate_reply_text (ctx : CommentContext) (persona_text : String)
    (project_dir : Option String) (searchHits : List SearchHit) : String :=
  let allow_dry_humor := _persona_allows_dry_humor persona_text
  let project := _project_name project_dir
  let intent := classify_intent ctx.comment_text
  let tone := choose_tone intent
  let keywords := extract_keywords ctx.comment_text 8
  let seed := ctx.comment_text ++ "\n" ++ ctx.author_name ++ "\n" ++ ctx.comment_id
  let topic := keywords.headD project
  let hint := _reference_hint intent keywords searchHits
  let humor :=
    if allow_dry_humor && (hexToNat ((reply_hash seed).data.take 2) % 5 = 0)
    then _stable_pick humorPool (seed ++ "/humor") else ""
  let opener := _stable_pick (openersFor tone ctx.author_name project) seed
  if intent = "praise" then
    pyStrip (joinSp ([opener, _stable_pick praiseMidPool (seed ++ "/mid"),
      _stable_pick (praiseAskPool topic) (seed ++ "/ask"), humor] ++
      (if hint ≠ "" then [hint] else [])))
  else if intent = "question" then
    pyStrip (joinSp ([opener, _stable_pick (questionMidPool topic) (seed ++ "/mid"),
      _stable_pick questionAskPool (seed ++ "/ask"), humor] ++
      (if hint ≠ "" then [hint] else [])))
  else if intent = "bug" then
    pyStrip (joinSp ([opener, _stable_pick (bugMidPool topic) (seed ++ "/mid"),
      _stable_pick bugAskPool (seed ++ "/ask"), humor] ++
      (if hint ≠ "" then [hint] else [])))
  else if intent = "feedback" then
    pyStrip (joinSp ([opener, _stable_pick (feedbackMidPool topic) (seed ++ "/mid"),
      _stable_pick feedbackAskPool (seed ++ "/ask"), humor] ++
      (if hint ≠ "" then [hint] else [])))
  else if intent = "hostile" then
    pyStrip (joinSpAll [opener, _stable_pick hostileMidPool (seed ++ "/mid"),
      _stable_pick (hostileClosePool project) (seed ++ "/close")])
  else if intent = "empty" then
    pyStrip (joinSpAll [opener, _stable_pick emptyAskPool (seed ++ "/ask")])
  else
    pyStrip (joinSp ([opener, _stable_pick (neutralMidPool topic) (seed ++ "/mid"),
      humor] ++ (if hint ≠ "" then [hint] else [])))

/-! ### The deduplication engine (`actions/comment_post.py` lines 507-583)

The six hash sets consulted by the per-comment uniqueness check: the
persisted ("prior") and current-run sets for the post, author and global
scopes.  Python `set`s are modelled as lists used only through membership. -/

structure ScopeSets where
  priorPost : List String
  runPost : List String
  priorAuthor : List String
  runAuthor : List String
  priorGlobal : List String
  runGlobal : List String
deriving DecidableEq

/-- The collision test of lines 509-516 (and 529-536, 542-549, 567-574):
membership in any of the six sets, in the order the code checks them. -/
def seenAll (s : ScopeSets) (h : String) : Bool :=
  s.priorPost.contains h || s.runPost.contains h ||
  s.priorAuthor.contains h || s.runAuthor.contains h ||
  s.priorGlobal.contains h || s.runGlobal.contains h

/-- `set.add` on the list model: no-op when already present. -/
def addHash (h : String) (l : List String) : List String :=
  if l.contains h then l else h :: l

/-- Lines 581-583: register an accepted hash into the three in-run scopes. -/
def registerRun (s : ScopeSets) (h : String) : ScopeSets :=
  { s with runPost := addHash h s.runPost,
           runGlobal := addHash h s.runGlobal,
           runAuthor := addHash h s.runAuthor }

/-- Lines 667-669: after a successful post, the hash also enters the three
persisted scopes. -/
def registerPrior (s : ScopeSets) (h : String) : ScopeSets :=
  { s with priorPost := addHash h s.priorPost,
           priorGlobal := addHash h s.priorGlobal,
           priorAuthor := addHash h s.priorAuthor }

/-- The fixed suffix list of lines 518-524, byte-for-byte from the source
(including the mojibake in the fourth entry). -/
def dedupSuffixes : List String :=
  [" Quick question: what outcome were you expecting?",
   " Quick check: what platform/engine are you on?",
   " If you can share your exact steps, I can verify it.",
   " If you can share a minimal repro, Iâ€™ll chase it down.",
   " If you can share what you expected vs what happened, I can fix it."]

/-- The candidate of suffix attempt `attempt` (1-based, lines 526-527):
`(reply_text + suffixes[(attempt - 1) % len(suffixes)]).strip()`. -/
def suffixCandidate (replyText : String) (attempt : Nat) : String :=
  pyStrip (replyText ++ dedupSuffixes.getD ((attempt - 1) % dedupSuffixes.length) "")

/-- The ten candidates of `for attempt in range(1, 11)` (line 525). -/
def suffixCandidateList (replyText : String) : List String :=
  (List.range 10).map (fun i => suffixCandidate replyText (i + 1))

/-- The last-resort candidate of lines 552-553:
`(reply_text + f" (ref {reply_hash(cid)[:6]})").strip()`. -/
def refTagCandidate (replyText cid : String) : String :=
  pyStrip (replyText ++ " (ref " ++ (reply_hash cid).take 6 ++ ")")

/-- First list element satisfying `p`, with its 0-based index. -/
def findFirstIdx (p : String → Bool) : List String → Option (Nat × String)
  | [] => none
  | c :: cs =>
    if p c then some (0, c)
    else (findFirstIdx p cs).map (fun r => (r.1 + 1, r.2))

/-- The four outcomes of the dedup sequence (spec section 4.6). -/
inductive DedupStatus where
  | uniqueFirstTry
  | uniqueAfterSuffix
  | uniqueAfterTag
  | exhausted
deriving DecidableEq

/-- Result of the dedup sequence: status, final text and hash, the scope
sets afterwards, and the list of retry candidates that were hashed after
the initial collision (a proof-side trace; empty on first-try success). -/
structure DedupResult where
  status : DedupStatus
  text : String
  hash : String
  sets : ScopeSets
  retried : List String
deriving DecidableEq

/-- The inline dedup sequence of `main` (comment_post.py lines 507-583) as a
function of the six scope sets, the composed reply and the comment id: hash
the candidate; on collision try the ten suffix attempts, then the ref-tag
candidate; on success register the accepted hash into the three in-run
scopes (lines 581-583); on exhaustion leave every set unchanged. -/
def ensure_unique (s : ScopeSets) (replyText cid : String) : DedupResult :=
  let h := reply_hash replyText
  if !seenAll s h then
    ⟨.uniqueFirstTry, replyText, h, registerRun s h, []⟩
  else
    let cands := suffixCandidateList replyText
    match findFirstIdx (fun c => !seenAll s (reply_hash c)) cands with
    | some (i, c) =>
      ⟨.uniqueAfterSuffix, c, reply_hash c, registerRun s (reply_hash c),
       cands.take (i + 1)⟩
    | none =>
      let tc := refTagCandidate replyText cid
      let h2 := reply_hash tc
      if !seenAll s h2 then
        ⟨.uniqueAfterTag, tc, h2, registerRun s h2, cands ++ [tc]⟩
      else
        ⟨.exhausted, replyText, h, s, cands ++ [tc]⟩

/-- One comment's pass through dedup and the send step, at the level of the
scope sets and the responded-comment-id list: on exhaustion the comment is
skipped (lines 567-579) — nothing registered, nothing marked responded; on
acceptance the in-run sets hold the hash, and only a successful network post
(modelled by `postSucceeds`; dry-run, draft-only and failed sends leave it
false) additionally persists the hash and marks the comment responded
(lines 663-669). -/
def processComment (s : ScopeSets) (responded : List String)
    (replyText cid : String) (postSucceeds : Bool) :
    ScopeSets × List String × DedupStatus :=
  let r := ensure_unique s replyText cid
  if r.status = .exhausted then (s, responded, .exhausted)
  else if postSucceeds then (registerPrior r.sets r.hash, responded ++ [cid], r.status)
  else (r.sets, responded, r.status)

/-! ### Spec-side models, for the refinement claims -/

/-- Modelled from the spec: the rule cascade of section 4.2 as an ordered
rule list (predicate, label), priority order empty, question, bug, praise,
hostile, feedback, with default `neutral`.  Used to compare `classify_intent`
against the spec's "first match wins" contract. -/
def specIntentRules : List ((String → Bool) × String) :=
  [(fun t => pyStrip t = "", "empty"),
   (fun t => containsStr t "?" || anyIn t questionPats, "question"),
   (fun t => anyIn t bugPats, "bug"),
   (fun t => anyIn t praisePats, "praise"),
   (fun t => anyIn t hostilePats, "hostile"),
   (fun t => anyIn t feedbackPats, "feedback")]

/-- First matching rule's label, default `"neutral"`. -/
def firstMatchRule : List ((String → Bool) × String) → String → String
  | [], _ => "neutral"
  | (p, lbl) :: rest, t => if p t then lbl else firstMatchRule rest t

/-- Modelled from the spec: classification as "rules applied in fixed
priority order (first match wins), case-insensitive" — the rules run on the
lowercased text. -/
def specClassify (text : String) : String :=
  firstMatchRule specIntentRules (lowerStr text)

/-- Modelled from claim C10: the suffix phase iterating the five fixed
suffixes once instead of ten cycling attempts. -/
def suffixCandidateList5 (replyText : String) : List String :=
  (List.range 5).map (fun i => suffixCandidate replyText (i + 1))

/-- Modelled from claim C10: `ensure_unique` with the five-attempt suffix
phase; compared with `ensure_unique` on all but the retry trace. -/
def ensure_unique_five (s : ScopeSets) (replyText cid : String) : DedupResult :=
  let h := reply_hash replyText
  if !seenAll s h then
    ⟨.uniqueFirstTry, replyText, h, registerRun s h, []⟩
  else
    let cands := suffixCandidateList5 replyText
    match findFirstIdx (fun c => !seenAll s (reply_hash c)) cands with
    | some (i, c) =>
      ⟨.uniqueAfterSuffix, c, reply_hash c, registerRun s (reply_hash c),
       cands.take (i + 1)⟩
    | none =>
      let tc := refTagCandidate replyText cid
      let h2 := reply_hash tc
      if !seenAll s h2 then
        ⟨.uniqueAfterTag, tc, h2, registerRun s h2, cands ++ [tc]⟩
      else
        ⟨.exhausted, replyText, h, s, cands ++ [tc]⟩

/-! ### Auxiliary data for the no-echo analysis and for concrete scenarios -/

/-- Every fixed text fragment of the composer: the literal segments around
the interpolated author/project/topic slots, and the whole members of the
pools that interpolate nothing.  Every composed reply is built from these,
the author name, the project name, the topic keyword and single spaces. -/
def fixedSegments : List String :=
  ["Thanks ", " — appreciate you checking out ", ".", "Hey ",
   ", glad you’re following along with ", "Good callout, ",
   " — that’s a solid question.", "Fair feedback, ", "That’s helpful input, ",
   "I hear you, ", "Got it, ", "Appreciate it, ",
   "I’m iterating quickly and sharing progress as things land.",
   "I’m polishing the rough edges and posting updates as I go.",
   "If there’s a feature you want next around `", "`, tell me.",
   "If you’ve got a wishlist item, toss it my way.",
   "On `", "`: I’ll double-check the repo and share the precise steps/entry point.",
   "Re `", "`: I’ll double-check the latest CatGame code/docs and answer precisely.",
   "What’s the end goal you’re trying to achieve?",
   "What platform/tooling are you using (Unity/Godot/other)?",
   "If you can share the minimal repro steps around `", "`, I can chase it down.",
   "If you can share the exact steps + environment, I can reproduce and patch it.",
   "What were you doing right before it happened?",
   "Any error text (sanitized) or screenshot of the symptom?",
   "I can see why `", "` could feel rough right now.",
   "That’s a reasonable ask — the current behavior is a bit raw.",
   "If you tell me what ‘good’ looks like for your workflow, I’ll aim for that.",
   "If you have a preferred UX, describe it and I’ll match it.",
   "If you’ve got specific technical feedback, I’m happy to address it.",
   "If you can make it concrete (what failed / what you expected), I can fix it.",
   "Either way, I’m going to keep building ",
   "I’m going to keep iterating and posting updates.",
   "What were you curious about?",
   "What part should I clarify — gameplay, tech, or roadmap?",
   "If you meant `",
   "` specifically, tell me what you’re aiming for and I’ll respond with details.",
   "If there’s a specific edge case you care about, I’ll prioritize it.",
   "I’ll poke at it and report back.",
   "I’ll go spelunking in the repo for this.",
   "I’ll sanity-check it end-to-end."]

/-- A concrete scope state on which every dedup attempt for the candidate
`"hi"` of comment `"c"` collides: the prior post scope already holds the
hash of the candidate, of all its suffix variants and of its ref-tag
variant. -/
def exhaustedScenarioSets : ScopeSets :=
  ⟨[reply_hash "hi"] ++ (suffixCandidateList "hi").map reply_hash ++
     [reply_hash (refTagCandidate "hi" "c")],
   [], [], [], [], []⟩

/-- The all-empty scope state (a fresh run with no history). -/
def emptySets : ScopeSets := ⟨[], [], [], [], [], []⟩

/-! ### Helper lemmas: characters -/

theorem char_eq_of_toNat_eq {a b : Char} (h : a.toNat = b.toNat) : a = b := by
  apply Char.eq_of_val_eq
  apply UInt32.ext
  exact h

theorem toNat_ofNat_valid (n : Nat) (h : n.isValidChar) :
    (Char.ofNat n).toNat = n := by
  simp [Char.ofNat, h, Char.toNat, Char.ofNatAux, UInt32.toNat, BitVec.toNat_ofNatLt]

theorem toNat_lowerChar (c : Char) :
    (lowerChar c).toNat =
      if 65 ≤ c.toNat ∧ c.toNat ≤ 90 then c.toNat + 32 else c.toNat := by
  unfold lowerChar
  split
  · next h =>
    exact toNat_ofNat_valid _ (Or.inl (by omega))
  · next h => rfl

theorem isSpaceCh_iff (c : Char) :
    isSpaceCh c = true ↔
      c.toNat = 32 ∨ c.toNat = 9 ∨ c.toNat = 10 ∨ c.toNat = 13 ∨
      c.toNat = 11 ∨ c.toNat = 12 := by
  simp only [isSpaceCh, Bool.or_eq_true, decide_eq_true_eq]
  tauto

theorem isSpaceCh_lowerChar (c : Char) : isSpaceCh (lowerChar c) = isSpaceCh c := by
  rw [Bool.eq_iff_iff, isSpaceCh_iff, isSpaceCh_iff, toNat_lowerChar]
  split
  · next h => omega
  · exact Iff.rfl

theorem isAlnumCh_iff (c : Char) :
    isAlnumCh c = true ↔
      (65 ≤ c.toNat ∧ c.toNat ≤ 90) ∨ (97 ≤ c.toNat ∧ c.toNat ≤ 122) ∨
      (48 ≤ c.toNat ∧ c.toNat ≤ 57) := by
  simp only [isAlnumCh, Bool.or_eq_true, Bool.and_eq_true, decide_eq_true_eq]
  tauto

theorem isAlnumCh_lowerChar (c : Char) : isAlnumCh (lowerChar c) = isAlnumCh c := by
  rw [Bool.eq_iff_iff, isAlnumCh_iff, isAlnumCh_iff, toNat_lowerChar]
  split
  · next h => omega
  · exact Iff.rfl

theorem isWordCh_iff (c : Char) :
    isWordCh c = true ↔
      isAlnumCh c = true ∨ c.toNat = 95 ∨ c.toNat = 45 := by
  simp only [isWordCh, Bool.or_eq_true, decide_eq_true_eq]
  tauto

theorem isWordCh_lowerChar (c : Char) : isWordCh (lowerChar c) = isWordCh c := by
  rw [Bool.eq_iff_iff, isWordCh_iff, isWordCh_iff, isAlnumCh_lowerChar]
  rw [isAlnumCh_iff, toNat_lowerChar]
  split
  · next h => omega
  · exact Iff.rfl

theorem lowerChar_idem (c : Char) : lowerChar (lowerChar c) = lowerChar c := by
  apply char_eq_of_toNat_eq
  rw [toNat_lowerChar (lowerChar c), toNat_lowerChar c]
  split
  · next h =>
    rw [if_neg]
    omega
  · next h => rfl

theorem lowerList_idem (l : List Char) : lowerList (lowerList l) = lowerList l := by
  unfold lowerList
  rw [List.map_map]
  apply List.map_congr_left
  intro c _
  exact lowerChar_idem c

theorem lowerStr_idem (s : String) : lowerStr (lowerStr s) = lowerStr s := by
  unfold lowerStr
  exact congrArg String.mk (lowerList_idem s.data)

/-! ### Helper lemmas: substring tests vs `List.IsInfix` -/

theorem isPreList_iff (sub hay : List Char) :
    isPreList sub hay = true ↔ sub <+: hay := by
  induction sub generalizing hay with
  | nil => simp [isPreList]
  | cons a as ih =>
    cases hay with
    | nil =>
      simp only [isPreList, Bool.false_eq_true, false_iff]
      intro h
      exact absurd (h.length_le) (by simp)
    | cons b bs =>
      simp only [isPreList, Bool.and_eq_true, decide_eq_true_eq, ih,
        List.cons_prefix_cons]

theorem containsList_iff (hay sub : List Char) :
    containsList hay sub = true ↔ sub <:+: hay := by
  induction hay with
  | nil =>
    simp only [containsList, isPreList_iff]
    constructor
    · intro h
      exact h.isInfix
    · intro h
      rw [List.eq_nil_of_infix_nil h]
  | cons c rest ih =>
    simp only [containsList, Bool.or_eq_true, isPreList_iff, ih,
      List.infix_cons_iff]

theorem containsStr_iff (hay sub : String) :
    containsStr hay sub = true ↔ sub.data <:+: hay.data :=
  containsList_iff hay.data sub.data

theorem containsStr_false_iff (hay sub : String) :
    containsStr hay sub = false ↔ ¬ sub.data <:+: hay.data := by
  rw [← containsStr_iff hay sub]
  cases containsStr hay sub <;> simp

/-! ### Helper lemmas: occurrences across concatenation -/

theorem pre_append_cases {α : Type} {t a b : List α} (h : t <+: a ++ b) :
    t <+: a ∨ ∃ t₂, t = a ++ t₂ ∧ t₂ <+: b := by
  induction a generalizing t with
  | nil =>
    right
    exact ⟨t, by simp, by simpa using h⟩
  | cons x a' ih =>
    cases t with
    | nil => left; exact List.nil_prefix
    | cons y t' =>
      rw [List.cons_append, List.cons_prefix_cons] at h
      obtain ⟨rfl, h2⟩ := h
      rcases ih h2 with h3 | ⟨t₂, rfl, h4⟩
      · left
        exact List.cons_prefix_cons.mpr ⟨rfl, h3⟩
      · right
        exact ⟨t₂, rfl, h4⟩

theorem infix_append_cases {α : Type} {t a b : List α} (h : t <:+: a ++ b) :
    t <:+: a ∨ t <:+: b ∨
      ∃ t₁ t₂, t = t₁ ++ t₂ ∧ t₁ ≠ [] ∧ t₂ ≠ [] ∧ t₁ <:+ a ∧ t₂ <+: b := by
  induction a generalizing t with
  | nil =>
    right; left
    simpa using h
  | cons x a' ih =>
    rw [List.cons_append, List.infix_cons_iff] at h
    rcases h with h | h
    · rcases @pre_append_cases α t (x :: a') b h with h1 | ⟨t₂, rfl, h2⟩
      · left
        exact h1.isInfix
      · cases t₂ with
        | nil =>
          left
          rw [List.append_nil]
        | cons z t₂' =>
          right; right
          exact ⟨x :: a', z :: t₂', rfl, by simp, by simp,
            List.suffix_refl (x :: a'), h2⟩
    · rcases ih h with h1 | h1 | ⟨t₁, t₂, rfl, hne1, hne2, hsuf, hpre⟩
      · left
        exact List.infix_cons h1
      · right; left
        exact h1
      · right; right
        exact ⟨t₁, t₂, rfl, hne1, hne2, hsuf.trans (List.suffix_cons x a'), hpre⟩

/-- If the first element of `b` is not a character of `t`, an occurrence of
`t` in `a ++ b` cannot straddle the boundary. -/
theorem absent_append_head {t a b : List Char}
    (ha : ¬ t <:+: a) (hb : ¬ t <:+: b)
    (hc : ∀ c ∈ b.take 1, c ∉ t) : ¬ t <:+: a ++ b := by
  intro h
  rcases infix_append_cases h with h1 | h1 | ⟨t₁, t₂, rfl, _, hne2, _, hpre⟩
  · exact ha h1
  · exact hb h1
  · cases t₂ with
    | nil => exact hne2 rfl
    | cons z t₂' =>
      cases b with
      | nil => exact absurd hpre.length_le (by simp)
      | cons w b' =>
        have hz : z = w := (List.cons_prefix_cons.mp hpre).1
        subst hz
        exact hc z (by simp) (by simp)

/-- If the last element of `a` is not a character of `t`, an occurrence of
`t` in `a ++ b` cannot straddle the boundary. -/
theorem absent_append_last {t a b : List Char}
    (ha : ¬ t <:+: a) (hb : ¬ t <:+: b)
    (hc : ∀ c ∈ a.reverse.take 1, c ∉ t) : ¬ t <:+: a ++ b := by
  intro h
  rw [← List.reverse_infix, List.reverse_append] at h
  revert h
  apply absent_append_head
  · rw [List.reverse_infix]; exact hb
  · rw [List.reverse_infix]; exact ha
  · intro c hcm hct
    exact hc c hcm (by simpa using hct)

/-! ### Helper lemmas: strip, join, stable pick -/

theorem stripList_infix_self (l : List Char) : stripList l <:+: l := by
  unfold stripList
  have h1 : l.dropWhile isSpaceCh <:+ l := List.dropWhile_suffix isSpaceCh
  have h2 : (l.dropWhile isSpaceCh).reverse.dropWhile isSpaceCh <:+
      (l.dropWhile isSpaceCh).reverse := List.dropWhile_suffix isSpaceCh
  have h3 := List.reverse_prefix.mpr h2
  rw [List.reverse_reverse] at h3
  exact h3.isInfix.trans h1.isInfix

theorem absent_pyStrip {t : List Char} {s : String}
    (h : ¬ t <:+: s.data) : ¬ t <:+: (pyStrip s).data := by
  intro hx
  exact h (hx.trans (stripList_infix_self s.data))

theorem data_append (a b : String) : (a ++ b).data = a.data ++ b.data := rfl

theorem absent_join {t : List Char} (hne : t ≠ []) (hsp : (' ' : Char) ∉ t) :
    ∀ parts : List String, (∀ p ∈ parts, ¬ t <:+: p.data) →
      ¬ t <:+: (joinWithSpace parts).data
  | [], _ => by
    intro h
    exact hne (List.eq_nil_of_infix_nil h)
  | [p], h => h p (by simp)
  | p :: q :: rest, h => by
    show ¬ t <:+: ((p ++ " ") ++ joinWithSpace (q :: rest)).data
    rw [data_append, data_append]
    have hsgl : ¬ t <:+: (" " : String).data := by
      intro hx
      have hsub := hx.subset
      cases t with
      | nil => exact hne rfl
      | cons a t' =>
        have ha : a ∈ (" " : String).data := hsub (by simp)
        have ha2 : a = ' ' := by simpa using ha
        subst ha2
        exact hsp (by simp)
    have hstep : ¬ t <:+: (p.data ++ (" " : String).data) := by
      apply absent_append_head (h p (by simp)) hsgl
      intro c hcm hct
      have hc2 : c = ' ' := by simpa using hcm
      rw [hc2] at hct
      exact hsp hct
    apply absent_append_last hstep
      (absent_join hne hsp (q :: rest) (fun r hr => h r (by simp [hr])))
    intro c hcm hct
    have hc2 : c = ' ' := by
      rw [show (p.data ++ (" " : String).data).reverse = ' ' :: p.data.reverse by simp]
        at hcm
      simpa using hcm
    rw [hc2] at hct
    exact hsp hct

theorem stable_pick_nil (seed : String) : _stable_pick [] seed = "" := rfl

theorem stable_pick_mem (options : List String) (seed : String)
    (h : options ≠ []) : _stable_pick options seed ∈ options := by
  unfold _stable_pick
  rw [if_neg (by simpa using h)]
  have hlen : 0 < options.length := List.length_pos.mpr h
  have hlt : hexToNat ((sha256HexStr seed).data.take 8) % options.length <
      options.length := Nat.mod_lt _ hlen
  rw [List.getD_eq_getElem options "" hlt]
  exact List.getElem_mem hlt

theorem dropWhile_forall_iff (p : Char → Bool) (l : List Char) :
    (∀ c ∈ l.dropWhile p, p c = true) ↔ ∀ c ∈ l, p c = true := by
  constructor
  · intro h c hc
    have hc2 : c ∈ l.takeWhile p ++ l.dropWhile p := by
      rw [List.takeWhile_append_dropWhile]
      exact hc
    rcases List.mem_append.mp hc2 with h1 | h1
    · exact List.mem_takeWhile_imp h1
    · exact h c h1
  · intro h c hc
    exact h c ((List.dropWhile_suffix p).subset hc)

theorem stripList_eq_nil_iff (l : List Char) :
    stripList l = [] ↔ ∀ c ∈ l, isSpaceCh c = true := by
  unfold stripList
  rw [List.reverse_eq_nil_iff, List.dropWhile_eq_nil_iff]
  constructor
  · intro h
    rw [← dropWhile_forall_iff isSpaceCh l]
    intro c hc
    exact h c (List.mem_reverse.mpr hc)
  · intro h c hc
    exact h c ((List.dropWhile_suffix isSpaceCh).subset (List.mem_reverse.mp hc))

theorem pyStrip_eq_empty_iff (s : String) :
    pyStrip s = "" ↔ ∀ c ∈ s.data, isSpaceCh c = true := by
  constructor
  · intro h
    exact (stripList_eq_nil_iff s.data).mp (congrArg String.data h)
  · intro h
    exact congrArg String.mk ((stripList_eq_nil_iff s.data).mpr h)

theorem pyStrip_ne_empty {s : String} (c : Char) (hc : c ∈ s.data)
    (hns : isSpaceCh c = false) : pyStrip s ≠ "" := by
  intro h
  have h2 := (pyStrip_eq_empty_iff s).mp h c hc
  rw [hns] at h2
  exact Bool.false_ne_true h2

/-! ### Helper lemmas: the tokenizer and keyword extraction -/

/-- Every token `findWordsAux` emits is an alphanumeric character followed by
at least two word characters (the shape of a `_WORD_RE` match). -/
theorem findWordsAux_shape (fuel : Nat) :
    ∀ l : List Char, ∀ w ∈ findWordsAux fuel l,
      ∃ c run, w = c :: run ∧ isAlnumCh c = true ∧
        (∀ d ∈ run, isWordCh d = true) ∧ 2 ≤ run.length := by
  induction fuel with
  | zero =>
    intro l w hw
    simp [findWordsAux] at hw
  | succ n ih =>
    intro l w hw
    cases l with
    | nil => simp [findWordsAux] at hw
    | cons c rest =>
      rw [findWordsAux] at hw
      by_cases h1 : isAlnumCh c = true
      · rw [if_pos h1] at hw
        by_cases h2 : 2 ≤ (rest.takeWhile isWordCh).length
        · rw [if_pos h2] at hw
          rcases List.mem_cons.mp hw with h3 | h3
          · exact ⟨c, rest.takeWhile isWordCh, h3, h1,
              fun d hd => List.mem_takeWhile_imp hd, h2⟩
          · exact ih _ w h3
        · rw [if_neg h2] at hw
          exact ih _ w hw
      · rw [if_neg h1] at hw
        exact ih _ w hw

theorem findWords_shape (l : List Char) :
    ∀ w ∈ findWords l,
      ∃ c run, w = c :: run ∧ isAlnumCh c = true ∧
        (∀ d ∈ run, isWordCh d = true) ∧ 2 ≤ run.length :=
  findWordsAux_shape l.length l

/-- The keyword loop only grows the accumulator with words from its input
that pass every filter. -/
theorem keywordLoop_mem (maxW : Nat) :
    ∀ ws acc, ∀ w ∈ keywordLoop maxW ws acc,
      w ∈ acc ∨
        (w ∈ ws ∧ stopWords.contains w = false ∧
          bannedWords.contains w = false ∧ pyIsDigit w = false) := by
  intro ws
  induction ws with
  | nil =>
    intro acc w hw
    rw [keywordLoop] at hw
    exact Or.inl hw
  | cons x ws' ih =>
    intro acc w hw
    rw [keywordLoop] at hw
    by_cases h1 : stopWords.contains x = true
    · rw [if_pos h1] at hw
      rcases ih acc w hw with h | ⟨h2, h3⟩
      · exact Or.inl h
      · exact Or.inr ⟨List.mem_cons_of_mem x h2, h3⟩
    · rw [if_neg h1] at hw
      by_cases h2 : bannedWords.contains x = true
      · rw [if_pos h2] at hw
        rcases ih acc w hw with h | ⟨h3, h4⟩
        · exact Or.inl h
        · exact Or.inr ⟨List.mem_cons_of_mem x h3, h4⟩
      · rw [if_neg h2] at hw
        by_cases h3 : pyIsDigit x = true
        · rw [if_pos h3] at hw
          rcases ih acc w hw with h | ⟨h4, h5⟩
          · exact Or.inl h
          · exact Or.inr ⟨List.mem_cons_of_mem x h4, h5⟩
        · rw [if_neg h3] at hw
          by_cases h4 : acc.contains x = true
          · rw [if_pos h4] at hw
            rcases ih acc w hw with h | ⟨h5, h6⟩
            · exact Or.inl h
            · exact Or.inr ⟨List.mem_cons_of_mem x h5, h6⟩
          · rw [if_neg h4] at hw
            have hx : stopWords.contains x = false ∧
                bannedWords.contains x = false ∧ pyIsDigit x = false :=
              ⟨Bool.eq_false_iff.mpr h1, Bool.eq_false_iff.mpr h2,
               Bool.eq_false_iff.mpr h3⟩
            by_cases h5 : maxW ≤ (acc ++ [x]).length
            · rw [if_pos h5] at hw
              rcases List.mem_append.mp hw with h | h
              · exact Or.inl h
              · have hwx : w = x := by simpa using h
                rw [hwx]
                exact Or.inr ⟨List.mem_cons_self x ws', hx⟩
            · rw [if_neg h5] at hw
              rcases ih (acc ++ [x]) w hw with h | ⟨h6, h7⟩
              · rcases List.mem_append.mp h with h | h
                · exact Or.inl h
                · have hwx : w = x := by simpa using h
                  rw [hwx]
                  exact Or.inr ⟨List.mem_cons_self x ws', hx⟩
              · exact Or.inr ⟨List.mem_cons_of_mem x h6, h7⟩

/-- The keyword loop preserves the accumulator as a prefix and appends a
subsequence of its input: first-seen order is preserved. -/
theorem keywordLoop_order (maxW : Nat) :
    ∀ ws acc, ∃ s, keywordLoop maxW ws acc = acc ++ s ∧ s.Sublist ws := by
  intro ws
  induction ws with
  | nil =>
    intro acc
    exact ⟨[], by rw [keywordLoop, List.append_nil], List.Sublist.refl []⟩
  | cons x ws' ih =>
    intro acc
    rw [keywordLoop]
    by_cases h1 : stopWords.contains x = true
    · rw [if_pos h1]
      obtain ⟨s, hs1, hs2⟩ := ih acc
      exact ⟨s, hs1, List.Sublist.cons x hs2⟩
    · rw [if_neg h1]
      by_cases h2 : bannedWords.contains x = true
      · rw [if_pos h2]
        obtain ⟨s, hs1, hs2⟩ := ih acc
        exact ⟨s, hs1, List.Sublist.cons x hs2⟩
      · rw [if_neg h2]
        by_cases h3 : pyIsDigit x = true
        · rw [if_pos h3]
          obtain ⟨s, hs1, hs2⟩ := ih acc
          exact ⟨s, hs1, List.Sublist.cons x hs2⟩
        · rw [if_neg h3]
          by_cases h4 : acc.contains x = true
          · rw [if_pos h4]
            obtain ⟨s, hs1, hs2⟩ := ih acc
            exact ⟨s, hs1, List.Sublist.cons x hs2⟩
          · rw [if_neg h4]
            by_cases h5 : maxW ≤ (acc ++ [x]).length
            · rw [if_pos h5]
              exact ⟨[x], rfl, List.Sublist.cons₂ x (List.nil_sublist ws')⟩
            · rw [if_neg h5]
              obtain ⟨s, hs1, hs2⟩ := ih (acc ++ [x])
              exact ⟨x :: s, by rw [hs1, List.append_assoc]; rfl,
                List.Sublist.cons₂ x hs2⟩

/-- The keyword loop never produces duplicates. -/
theorem keywordLoop_nodup (maxW : Nat) :
    ∀ ws acc, acc.Nodup → (keywordLoop maxW ws acc).Nodup := by
  intro ws
  induction ws with
  | nil =>
    intro acc h
    rw [keywordLoop]
    exact h
  | cons x ws' ih =>
    intro acc hacc
    rw [keywordLoop]
    by_cases h1 : stopWords.contains x = true
    · rw [if_pos h1]; exact ih acc hacc
    · rw [if_neg h1]
      by_cases h2 : bannedWords.contains x = true
      · rw [if_pos h2]; exact ih acc hacc
      · rw [if_neg h2]
        by_cases h3 : pyIsDigit x = true
        · rw [if_pos h3]; exact ih acc hacc
        · rw [if_neg h3]
          by_cases h4 : acc.contains x = true
          · rw [if_pos h4]; exact ih acc hacc
          · rw [if_neg h4]
            have hnx : x ∉ acc := by
              intro hmem
              apply h4
              simpa using hmem
            have hacc2 : (acc ++ [x]).Nodup := by
              rw [List.nodup_append]
              exact ⟨hacc, List.nodup_singleton x,
                by simpa [List.disjoint_singleton] using hnx⟩
            by_cases h5 : maxW ≤ (acc ++ [x]).length
            · rw [if_pos h5]; exact hacc2
            · rw [if_neg h5]; exact ih (acc ++ [x]) hacc2

/-- Size bound of the keyword loop: below the cap, the result stays within
the cap; the cap-zero case can still return one element, because the stop
test runs only after an append. -/
theorem keywordLoop_length (maxW : Nat) :
    ∀ ws acc, (acc.length < maxW →
        (keywordLoop maxW ws acc).length ≤ maxW) ∧
      (maxW = 0 → (keywordLoop maxW ws acc).length ≤ acc.length + 1) := by
  intro ws
  induction ws with
  | nil =>
    intro acc
    rw [keywordLoop]
    exact ⟨fun h => Nat.le_of_lt h, fun _ => Nat.le_succ _⟩
  | cons x ws' ih =>
    intro acc
    rw [keywordLoop]
    by_cases h1 : stopWords.contains x = true
    · rw [if_pos h1]; exact ih acc
    · rw [if_neg h1]
      by_cases h2 : bannedWords.contains x = true
      · rw [if_pos h2]; exact ih acc
      · rw [if_neg h2]
        by_cases h3 : pyIsDigit x = true
        · rw [if_pos h3]; exact ih acc
        · rw [if_neg h3]
          by_cases h4 : acc.contains x = true
          · rw [if_pos h4]; exact ih acc
          · rw [if_neg h4]
            by_cases h5 : maxW ≤ (acc ++ [x]).length
            · rw [if_pos h5]
              constructor
              · intro h
                simp only [List.length_append, List.length_cons,
                  List.length_nil]
                omega
              · intro h
                simp only [List.length_append, List.length_cons,
                  List.length_nil]
                omega
            · rw [if_neg h5]
              constructor
              · intro h
                apply (ih (acc ++ [x])).1
                simp only [List.length_append, List.length_cons,
                  List.length_nil] at h5 ⊢
                omega
              · intro h
                subst h
                simp at h5

/-! ### Helper lemmas: the classifier -/

theorem classify_eq_specClassify (text : String) :
    classify_intent text = specClassify text := by
  simp only [classify_intent, specClassify, specIntentRules, firstMatchRule,
    decide_eq_true_eq]

theorem mem_lowerList_of_mem {c : Char} {l : List Char} (h : c ∈ l)
    (hfix : lowerChar c = c) : c ∈ lowerList l := by
  unfold lowerList
  rw [← hfix]
  exact List.mem_map_of_mem lowerChar h

theorem classify_blank (text : String)
    (h : ∀ c ∈ text.data, isSpaceCh c = true) :
    classify_intent text = "empty" := by
  unfold classify_intent
  rw [if_pos]
  apply (pyStrip_eq_empty_iff (lowerStr text)).mpr
  intro c hc
  unfold lowerStr lowerList at hc
  rcases List.mem_map.mp hc with ⟨d, hd, rfl⟩
  rw [isSpaceCh_lowerChar]
  exact h d hd

theorem containsStr_question_lower (text : String)
    (h : containsStr text "?" = true) :
    containsStr (lowerStr text) "?" = true := by
  rw [containsStr_iff] at h ⊢
  have hq : ('?' : Char) ∈ text.data := by
    rcases List.infix_iff_prefix_suffix.mp h with ⟨u, hu1, hu2⟩
    exact hu2.subset (hu1.subset (by simp [String.data]))
  have hq2 : ('?' : Char) ∈ (lowerStr text).data :=
    mem_lowerList_of_mem hq (by decide)
  rcases List.mem_iff_append.mp hq2 with ⟨a, b, hab⟩
  rw [hab]
  exact ⟨a, b, by simp [String.data]⟩

theorem classify_question (text : String)
    (hnb : ∃ c ∈ text.data, isSpaceCh c = false)
    (hq : containsStr text "?" = true) :
    classify_intent text = "question" := by
  unfold classify_intent
  rw [if_neg, if_pos]
  · rw [Bool.or_eq_true]
    left
    exact containsStr_question_lower text hq
  · obtain ⟨c, hc, hns⟩ := hnb
    apply pyStrip_ne_empty (lowerChar c)
    · exact List.mem_map_of_mem lowerChar hc
    · rw [isSpaceCh_lowerChar]
      exact hns

theorem classify_lower_invariant (text : String) :
    classify_intent (lowerStr text) = classify_intent text := by
  unfold classify_intent
  rw [lowerStr_idem]

/-! ### Helper lemmas: the dedup engine -/

theorem findFirstIdx_append_some {p : String → Bool} {l₁ : List String}
    {r : Nat × String} (l₂ : List String) (h : findFirstIdx p l₁ = some r) :
    findFirstIdx p (l₁ ++ l₂) = some r := by
  induction l₁ generalizing r with
  | nil => simp [findFirstIdx] at h
  | cons x xs ih =>
    rw [findFirstIdx] at h
    rw [List.cons_append, findFirstIdx]
    by_cases hx : p x = true
    · rw [if_pos hx] at h ⊢
      exact h
    · rw [if_neg hx] at h ⊢
      rcases Option.map_eq_some'.mp h with ⟨r', hr1, hr2⟩
      rw [ih hr1, ← hr2]
      rfl

theorem findFirstIdx_append_none {p : String → Bool} {l₁ l₂ : List String}
    (h1 : findFirstIdx p l₁ = none) (h2 : findFirstIdx p l₂ = none) :
    findFirstIdx p (l₁ ++ l₂) = none := by
  induction l₁ with
  | nil => simpa using h2
  | cons x xs ih =>
    rw [findFirstIdx] at h1
    rw [List.cons_append, findFirstIdx]
    by_cases hx : p x = true
    · rw [if_pos hx] at h1
      exact absurd h1 (by simp)
    · rw [if_neg hx] at h1 ⊢
      rw [ih (by simpa using h1)]
      rfl

theorem findFirstIdx_mem {p : String → Bool} :
    ∀ {l : List String} {r : Nat × String},
      findFirstIdx p l = some r → r.2 ∈ l ∧ p r.2 = true := by
  intro l
  induction l with
  | nil =>
    intro r h
    simp [findFirstIdx] at h
  | cons x xs ih =>
    intro r h
    rw [findFirstIdx] at h
    by_cases hx : p x = true
    · rw [if_pos hx] at h
      have : r = (0, x) := by
        cases h
        rfl
      rw [this]
      exact ⟨by simp, hx⟩
    · rw [if_neg hx] at h
      rcases Option.map_eq_some'.mp h with ⟨r', hr1, hr2⟩
      obtain ⟨hm, hp⟩ := ih hr1
      rw [← hr2]
      exact ⟨List.mem_cons_of_mem x hm, hp⟩

theorem suffixCandidateList_eq_double (replyText : String) :
    suffixCandidateList replyText =
      suffixCandidateList5 replyText ++ suffixCandidateList5 replyText := rfl

/-- Every entry of the ten-attempt candidate list appends one of the five
fixed suffixes to the unchanged candidate. -/
theorem suffixCandidateList_mem_shape (replyText : String) :
    ∀ c ∈ suffixCandidateList replyText,
      ∃ suf ∈ dedupSuffixes, c = pyStrip (replyText ++ suf) := by
  intro c hc
  rcases List.mem_map.mp hc with ⟨i, hi, rfl⟩
  refine ⟨dedupSuffixes.getD ((i + 1 - 1) % dedupSuffixes.length) "", ?_, rfl⟩
  have hlen : (i + 1 - 1) % dedupSuffixes.length < dedupSuffixes.length := by
    apply Nat.mod_lt
    decide
  rw [List.getD_eq_getElem dedupSuffixes "" hlen]
  exact List.getElem_mem hlen

theorem ensure_unique_exhausted_sets {s : ScopeSets} {replyText cid : String}
    (h : (ensure_unique s replyText cid).status = .exhausted) :
    ensure_unique s replyText cid =
      ⟨.exhausted, replyText, reply_hash replyText, s,
       suffixCandidateList replyText ++ [refTagCandidate replyText cid]⟩ := by
  simp only [ensure_unique] at h ⊢
  cases hb : seenAll s (reply_hash replyText) with
  | false =>
    simp [hb] at h
  | true =>
    simp only [hb, Bool.not_true, Bool.true_eq_false, Bool.false_eq_true,
      if_false] at h ⊢
    rcases hfind : findFirstIdx
        (fun c => !seenAll s (reply_hash c)) (suffixCandidateList replyText)
      with _ | r
    · rw [hfind] at h
      cases hb2 : seenAll s (reply_hash (refTagCandidate replyText cid)) with
      | false =>
        simp [hb2] at h
      | true =>
        simp [hb2]
    · obtain ⟨i, c⟩ := r
      rw [hfind] at h
      simp at h

theorem ensure_unique_first_try {s : ScopeSets} {candidate cid : String}
    (h : seenAll s (reply_hash candidate) = false) :
    ensure_unique s candidate cid =
      ⟨.uniqueFirstTry, candidate, reply_hash candidate,
       registerRun s (reply_hash candidate), []⟩ := by
  simp [ensure_unique, h]

theorem suffixCandidateList_length (t : String) :
    (suffixCandidateList t).length = 10 := by
  simp [suffixCandidateList]

theorem ensure_unique_retried_spec (s : ScopeSets) (candidate cid : String) :
    (ensure_unique s candidate cid).retried.length ≤ 11 ∧
    ∀ c ∈ (ensure_unique s candidate cid).retried,
      (∃ suf ∈ dedupSuffixes, c = pyStrip (candidate ++ suf)) ∨
        c = refTagCandidate candidate cid := by
  simp only [ensure_unique]
  cases hb : seenAll s (reply_hash candidate) with
  | false => simp
  | true =>
    simp only [Bool.not_true, Bool.false_eq_true, if_false]
    rcases hfind : findFirstIdx
        (fun c => !seenAll s (reply_hash c)) (suffixCandidateList candidate)
      with _ | r
    · cases hb2 : seenAll s (reply_hash (refTagCandidate candidate cid)) with
      | false =>
        simp only [hb2, Bool.not_false, if_true]
        constructor
        · simp [suffixCandidateList_length]
        · intro c hc
          rcases List.mem_append.mp hc with h1 | h1
          · exact Or.inl (suffixCandidateList_mem_shape candidate c h1)
          · exact Or.inr (by simpa using h1)
      | true =>
        simp only [hb2, Bool.not_true, Bool.false_eq_true, if_false]
        constructor
        · simp [suffixCandidateList_length]
        · intro c hc
          rcases List.mem_append.mp hc with h1 | h1
          · exact Or.inl (suffixCandidateList_mem_shape candidate c h1)
          · exact Or.inr (by simpa using h1)
    · obtain ⟨i, c⟩ := r
      constructor
      · have h1 : ((suffixCandidateList candidate).take (i + 1)).length ≤ 10 := by
          have h2 := (List.take_sublist (i + 1) (suffixCandidateList candidate)).length_le
          rw [suffixCandidateList_length] at h2
          exact h2
        simp only []
        omega
      · intro x hx
        simp only at hx
        exact Or.inl (suffixCandidateList_mem_shape candidate x
          (List.take_subset (i + 1) _ hx))

theorem processComment_exhausted {s : ScopeSets} {responded : List String}
    {candidate cid : String} {b : Bool}
    (h : (ensure_unique s candidate cid).status = .exhausted) :
    processComment s responded candidate cid b = (s, responded, .exhausted) := by
  simp [processComment, h]

theorem ensure_unique_eq_five (s : ScopeSets) (candidate cid : String) :
    (ensure_unique s candidate cid).status = (ensure_unique_five s candidate cid).status ∧
    (ensure_unique s candidate cid).text = (ensure_unique_five s candidate cid).text ∧
    (ensure_unique s candidate cid).hash = (ensure_unique_five s candidate cid).hash ∧
    (ensure_unique s candidate cid).sets = (ensure_unique_five s candidate cid).sets := by
  simp only [ensure_unique, ensure_unique_five]
  cases hb : seenAll s (reply_hash candidate) with
  | false => simp
  | true =>
    simp only [Bool.not_true, Bool.false_eq_true, if_false]
    rcases h5 : findFirstIdx
        (fun c => !seenAll s (reply_hash c)) (suffixCandidateList5 candidate)
      with _ | r
    · have h10 : findFirstIdx (fun c => !seenAll s (reply_hash c))
          (suffixCandidateList candidate) = none := by
        rw [suffixCandidateList_eq_double]
        exact findFirstIdx_append_none h5 h5
      rw [h10]
      cases hb2 : seenAll s (reply_hash (refTagCandidate candidate cid)) with
      | false => simp [hb2]
      | true => simp [hb2]
    · have h10 : findFirstIdx (fun c => !seenAll s (reply_hash c))
          (suffixCandidateList candidate) = some r := by
        rw [suffixCandidateList_eq_double]
        exact findFirstIdx_append_some _ h5
      rw [h10]
      obtain ⟨i, c⟩ := r
      simp

/-! ### Helper lemmas: non-empty replies and the empty-intent shape -/

theorem openersFor_ne_nil (tone author project : String) :
    openersFor tone author project ≠ [] := by
  unfold openersFor
  split_ifs <;> simp

theorem mem_data_append_left {c : Char} {a : String} (b : String)
    (h : c ∈ a.data) : c ∈ (a ++ b).data := by
  rw [data_append]
  exact List.mem_append_left _ h

theorem openersFor_has_nonspace (tone author project : String) :
    ∀ o ∈ openersFor tone author project,
      ∃ c ∈ o.data, isSpaceCh c = false := by
  unfold openersFor
  split_ifs <;> intro o ho <;>
    simp only [List.mem_cons, List.not_mem_nil, or_false] at ho
  · rcases ho with rfl | rfl
    · exact ⟨'T', mem_data_append_left _ (mem_data_append_left _
        (mem_data_append_left _ (mem_data_append_left _ (by decide)))), by decide⟩
    · exact ⟨'H', mem_data_append_left _ (mem_data_append_left _
        (mem_data_append_left _ (mem_data_append_left _ (by decide)))), by decide⟩
  · rcases ho with rfl | rfl
    · exact ⟨'G', mem_data_append_left _ (mem_data_append_left _ (by decide)),
        by decide⟩
    · exact ⟨'T', mem_data_append_left _ (mem_data_append_left _ (by decide)),
        by decide⟩
  · rcases ho with rfl | rfl
    · exact ⟨'F', mem_data_append_left _ (mem_data_append_left _ (by decide)),
        by decide⟩
    · exact ⟨'T', mem_data_append_left _ (mem_data_append_left _ (by decide)),
        by decide⟩
  · rcases ho with rfl | rfl
    · exact ⟨'I', mem_data_append_left _ (mem_data_append_left _ (by decide)),
        by decide⟩
    · exact ⟨'G', mem_data_append_left _ (mem_data_append_left _ (by decide)),
        by decide⟩
  · rcases ho with rfl | rfl
    · exact ⟨'T', mem_data_append_left _ (mem_data_append_left _ (by decide)),
        by decide⟩
    · exact ⟨'A', mem_data_append_left _ (mem_data_append_left _ (by decide)),
        by decide⟩

theorem joinWithSpace_cons (p : String) (rest : List String) :
    ∃ suf, (joinWithSpace (p :: rest)).data = p.data ++ suf := by
  cases rest with
  | nil => exact ⟨[], by simp [joinWithSpace]⟩
  | cons q r =>
    refine ⟨' ' :: (joinWithSpace (q :: r)).data, ?_⟩
    show ((p ++ " ") ++ joinWithSpace (q :: r)).data = _
    rw [data_append, data_append, List.append_assoc]
    rfl

theorem pyStrip_joinSp_ne_empty {opener : String} (tail : List String)
    (c : Char) (hc : c ∈ opener.data) (hns : isSpaceCh c = false) :
    pyStrip (joinSp (opener :: tail)) ≠ "" := by
  have hne : opener ≠ "" := by
    intro h
    rw [h] at hc
    simp [String.data] at hc
  unfold joinSp
  rw [List.filter_cons_of_pos (by simpa using hne)]
  obtain ⟨suf, hsuf⟩ := joinWithSpace_cons opener
    (List.filter (fun p => p ≠ "") tail)
  apply pyStrip_ne_empty c _ hns
  rw [hsuf]
  exact List.mem_append_left _ hc

theorem pyStrip_joinSpAll_ne_empty {opener : String} (tail : List String)
    (c : Char) (hc : c ∈ opener.data) (hns : isSpaceCh c = false) :
    pyStrip (joinSpAll (opener :: tail)) ≠ "" := by
  unfold joinSpAll
  obtain ⟨suf, hsuf⟩ := joinWithSpace_cons opener tail
  apply pyStrip_ne_empty c _ hns
  rw [hsuf]
  exact List.mem_append_left _ hc

theorem classify_intent_mem (t : String) :
    classify_intent t = "empty" ∨ classify_intent t = "question" ∨
    classify_intent t = "bug" ∨ classify_intent t = "praise" ∨
    classify_intent t = "hostile" ∨ classify_intent t = "feedback" ∨
    classify_intent t = "neutral" := by
  simp only [classify_intent]
  split_ifs <;> simp

theorem stable_opener_nonspace (tone author project seed : String) :
    ∃ c ∈ (_stable_pick (openersFor tone author project) seed).data,
      isSpaceCh c = false :=
  openersFor_has_nonspace tone author project _
    (stable_pick_mem _ seed (openersFor_ne_nil tone author project))

theorem generate_reply_nonempty (ctx : CommentContext) (persona_text : String)
    (project_dir : Option String) (searchHits : List SearchHit) :
    generate_reply_text ctx persona_text project_dir searchHits ≠ "" := by
  rcases classify_intent_mem ctx.comment_text with h | h | h | h | h | h | h
  · simp only [generate_reply_text, h]
    rw [if_neg (by decide), if_neg (by decide), if_neg (by decide),
      if_neg (by decide), if_neg (by decide), if_pos trivial]
    obtain ⟨c, hc, hns⟩ := stable_opener_nonspace (choose_tone "empty")
      ctx.author_name (_project_name project_dir)
      (ctx.comment_text ++ "\n" ++ ctx.author_name ++ "\n" ++ ctx.comment_id)
    exact pyStrip_joinSpAll_ne_empty _ c hc hns
  · simp only [generate_reply_text, h]
    rw [if_neg (by decide), if_pos trivial]
    obtain ⟨c, hc, hns⟩ := stable_opener_nonspace (choose_tone "question")
      ctx.author_name (_project_name project_dir)
      (ctx.comment_text ++ "\n" ++ ctx.author_name ++ "\n" ++ ctx.comment_id)
    exact pyStrip_joinSp_ne_empty _ c hc hns
  · simp only [generate_reply_text, h]
    rw [if_neg (by decide), if_neg (by decide), if_pos trivial]
    obtain ⟨c, hc, hns⟩ := stable_opener_nonspace (choose_tone "bug")
      ctx.author_name (_project_name project_dir)
      (ctx.comment_text ++ "\n" ++ ctx.author_name ++ "\n" ++ ctx.comment_id)
    exact pyStrip_joinSp_ne_empty _ c hc hns
  · simp only [generate_reply_text, h]
    rw [if_pos trivial]
    obtain ⟨c, hc, hns⟩ := stable_opener_nonspace (choose_tone "praise")
      ctx.author_name (_project_name project_dir)
      (ctx.comment_text ++ "\n" ++ ctx.author_name ++ "\n" ++ ctx.comment_id)
    exact pyStrip_joinSp_ne_empty _ c hc hns
  · simp only [generate_reply_text, h]
    rw [if_neg (by decide), if_neg (by decide), if_neg (by decide),
      if_neg (by decide), if_pos trivial]
    obtain ⟨c, hc, hns⟩ := stable_opener_nonspace (choose_tone "hostile")
      ctx.author_name (_project_name project_dir)
      (ctx.comment_text ++ "\n" ++ ctx.author_name ++ "\n" ++ ctx.comment_id)
    exact pyStrip_joinSpAll_ne_empty _ c hc hns
  · simp only [generate_reply_text, h]
    rw [if_neg (by decide), if_neg (by decide), if_neg (by decide),
      if_pos trivial]
    obtain ⟨c, hc, hns⟩ := stable_opener_nonspace (choose_tone "feedback")
      ctx.author_name (_project_name project_dir)
      (ctx.comment_text ++ "\n" ++ ctx.author_name ++ "\n" ++ ctx.comment_id)
    exact pyStrip_joinSp_ne_empty _ c hc hns
  · simp only [generate_reply_text, h]
    rw [if_neg (by decide), if_neg (by decide), if_neg (by decide),
      if_neg (by decide), if_neg (by decide), if_neg (by decide)]
    obtain ⟨c, hc, hns⟩ := stable_opener_nonspace (choose_tone "neutral")
      ctx.author_name (_project_name project_dir)
      (ctx.comment_text ++ "\n" ++ ctx.author_name ++ "\n" ++ ctx.comment_id)
    exact pyStrip_joinSp_ne_empty _ c hc hns

theorem generate_empty_shape (ctx : CommentContext) (persona_text : String)
    (project_dir : Option String) (searchHits : List SearchHit)
    (h : classify_intent ctx.comment_text = "empty") :
    ∃ o ∈ openersFor "neutral" ctx.author_name (_project_name project_dir),
      ∃ a ∈ emptyAskPool,
        generate_reply_text ctx persona_text project_dir searchHits =
          pyStrip (o ++ " " ++ a) := by
  simp only [generate_reply_text, h]
  rw [if_neg (by decide), if_neg (by decide), if_neg (by decide),
    if_neg (by decide), if_neg (by decide), if_pos trivial]
  refine ⟨_stable_pick (openersFor (choose_tone "empty") ctx.author_name
      (_project_name project_dir))
      (ctx.comment_text ++ "\n" ++ ctx.author_name ++ "\n" ++ ctx.comment_id),
    stable_pick_mem _ _ (openersFor_ne_nil _ _ _),
    _stable_pick emptyAskPool
      (ctx.comment_text ++ "\n" ++ ctx.author_name ++ "\n" ++ ctx.comment_id ++ "/ask"),
    stable_pick_mem _ _ (by decide), ?_⟩
  rfl

/-! ### Helper lemmas: the no-echo analysis -/

theorem fixedSegments_safe_banned :
    ∀ s ∈ fixedSegments, ∀ t ∈ bannedWords, containsStr s t = false := by
  decide

theorem fixedSegments_safe_url :
    ∀ s ∈ fixedSegments, containsStr s "://" = false := by
  decide

theorem take_one_append {α : Type} (a b : List α) (h : a ≠ []) :
    (a ++ b).take 1 = a.take 1 := by
  cases a with
  | nil => exact absurd rfl h
  | cons x xs => rfl

/-- The boundary hypotheses our template lemmas consume: every character of
the (one-element) boundary list avoids `t`. -/
theorem boundary_of_not_mem {t : List Char} (l : List Char)
    (h : ∀ c ∈ l, c ∉ t) : ∀ c ∈ l.take 1, c ∉ t :=
  fun c hc => h c (List.take_subset 1 l hc)

theorem absent_concat3 {t : List Char} (l1 v l2 : List Char)
    (h1 : ¬ t <:+: l1) (hv : ¬ t <:+: v) (h2 : ¬ t <:+: l2)
    (hb1 : ∀ c ∈ l1.reverse.take 1, c ∉ t)
    (hb2 : ∀ c ∈ l2.take 1, c ∉ t) :
    ¬ t <:+: l1 ++ v ++ l2 :=
  absent_append_head (absent_append_last h1 hv hb1) h2 hb2

theorem absent_concat5 {t : List Char} (l1 v1 l2 v2 l3 : List Char)
    (h1 : ¬ t <:+: l1) (hv1 : ¬ t <:+: v1) (h2 : ¬ t <:+: l2)
    (hv2 : ¬ t <:+: v2) (h3 : ¬ t <:+: l3)
    (hb1 : ∀ c ∈ l1.reverse.take 1, c ∉ t)
    (hb2h : ∀ c ∈ l2.take 1, c ∉ t)
    (hb2l : ∀ c ∈ l2.reverse.take 1, c ∉ t)
    (hl2 : l2 ≠ []) (hb3 : ∀ c ∈ l3.take 1, c ∉ t) :
    ¬ t <:+: l1 ++ v1 ++ l2 ++ v2 ++ l3 := by
  apply absent_append_head _ h3 hb3
  apply absent_append_last _ hv2 ?_
  · exact absent_append_head (absent_append_last h1 hv1 hb1) h2 hb2h
  · intro c hc
    apply hb2l c
    rw [List.reverse_append, take_one_append _ _ (by simpa using hl2)] at hc
    exact hc

/-- The character-avoidance package under which a composed reply cannot
contain `t`: `t` is nonempty and avoids space, comma, period and backtick —
the characters adjoining every interpolated slot and the join separator. -/
abbrev BoundarySafe (t : String) : Prop :=
  t.data ≠ [] ∧ (' ' : Char) ∉ t.data ∧ (',' : Char) ∉ t.data ∧
    ('.' : Char) ∉ t.data ∧ ('`' : Char) ∉ t.data

theorem bannedWords_boundarySafe : ∀ t ∈ bannedWords, BoundarySafe t := by
  decide

theorem url_marker_boundarySafe : BoundarySafe "://" := by
  decide

theorem seg_absent {t s : String} (h : containsStr s t = false) :
    ¬ t.data <:+: s.data := (containsStr_false_iff s t).mp h

theorem boundary_singleton {t : List Char} {ch : Char} (h : ch ∉ t)
    {l : List Char} (hl : l.take 1 = [ch]) : ∀ c ∈ l.take 1, c ∉ t := by
  intro c hc
  rw [hl] at hc
  have hc2 : c = ch := by simpa using hc
  rwa [hc2]

theorem openersFor_absent {t : String} (hb : BoundarySafe t)
    (hsegB : ∀ s ∈ fixedSegments, containsStr s t = false)
    (tone author project : String)
    (hA : ¬ t.data <:+: author.data) (hP : ¬ t.data <:+: project.data) :
    ∀ o ∈ openersFor tone author project, ¬ t.data <:+: o.data := by
  obtain ⟨htne, hsp, hcm, hdot, hbt⟩ := hb
  have seg : ∀ s ∈ fixedSegments, ¬ t.data <:+: s.data :=
    fun s hs => seg_absent (hsegB s hs)
  unfold openersFor
  split_ifs <;> intro o ho <;>
    simp only [List.mem_cons, List.not_mem_nil, or_false] at ho
  · rcases ho with rfl | rfl
    · show ¬ t.data <:+:
        (((("Thanks " ++ author) ++ " — appreciate you checking out ") ++
          project) ++ ".").data
      simp only [data_append]
      exact absent_concat5 _ _ _ _ _ (seg _ (by decide)) hA (seg _ (by decide))
        hP (seg _ (by decide)) (boundary_singleton hsp (by decide))
        (boundary_singleton hsp (by decide)) (boundary_singleton hsp (by decide))
        (by decide) (boundary_singleton hdot (by decide))
    · show ¬ t.data <:+:
        (((("Hey " ++ author) ++ ", glad you’re following along with ") ++
          project) ++ ".").data
      simp only [data_append]
      exact absent_concat5 _ _ _ _ _ (seg _ (by decide)) hA (seg _ (by decide))
        hP (seg _ (by decide)) (boundary_singleton hsp (by decide))
        (boundary_singleton hcm (by decide)) (boundary_singleton hsp (by decide))
        (by decide) (boundary_singleton hdot (by decide))
  · rcases ho with rfl | rfl
    · show ¬ t.data <:+: (("Good callout, " ++ author) ++ ".").data
      simp only [data_append]
      exact absent_concat3 _ _ _ (seg _ (by decide)) hA (seg _ (by decide))
        (boundary_singleton hsp (by decide)) (boundary_singleton hdot (by decide))
    · show ¬ t.data <:+:
        (("Thanks " ++ author) ++ " — that’s a solid question.").data
      simp only [data_append]
      exact absent_concat3 _ _ _ (seg _ (by decide)) hA (seg _ (by decide))
        (boundary_singleton hsp (by decide)) (boundary_singleton hsp (by decide))
  · rcases ho with rfl | rfl
    · show ¬ t.data <:+: (("Fair feedback, " ++ author) ++ ".").data
      simp only [data_append]
      exact absent_concat3 _ _ _ (seg _ (by decide)) hA (seg _ (by decide))
        (boundary_singleton hsp (by decide)) (boundary_singleton hdot (by decide))
    · show ¬ t.data <:+: (("That’s helpful input, " ++ author) ++ ".").data
      simp only [data_append]
      exact absent_concat3 _ _ _ (seg _ (by decide)) hA (seg _ (by decide))
        (boundary_singleton hsp (by decide)) (boundary_singleton hdot (by decide))
  · rcases ho with rfl | rfl
    · show ¬ t.data <:+: (("I hear you, " ++ author) ++ ".").data
      simp only [data_append]
      exact absent_concat3 _ _ _ (seg _ (by decide)) hA (seg _ (by decide))
        (boundary_singleton hsp (by decide)) (boundary_singleton hdot (by decide))
    · show ¬ t.data <:+: (("Got it, " ++ author) ++ ".").data
      simp only [data_append]
      exact absent_concat3 _ _ _ (seg _ (by decide)) hA (seg _ (by decide))
        (boundary_singleton hsp (by decide)) (boundary_singleton hdot (by decide))
  · rcases ho with rfl | rfl
    · show ¬ t.data <:+: (("Thanks " ++ author) ++ ".").data
      simp only [data_append]
      exact absent_concat3 _ _ _ (seg _ (by decide)) hA (seg _ (by decide))
        (boundary_singleton hsp (by decide)) (boundary_singleton hdot (by decide))
    · show ¬ t.data <:+: (("Appreciate it, " ++ author) ++ ".").data
      simp only [data_append]
      exact absent_concat3 _ _ _ (seg _ (by decide)) hA (seg _ (by decide))
        (boundary_singleton hsp (by decide)) (boundary_singleton hdot (by decide))

theorem praiseAskPool_absent {t : String} (hb : BoundarySafe t)
    (hsegB : ∀ s ∈ fixedSegments, containsStr s t = false)
    (topic : String) (hT : ¬ t.data <:+: topic.data) :
    ∀ o ∈ praiseAskPool topic, ¬ t.data <:+: o.data := by
  obtain ⟨htne, hsp, hcm, hdot, hbt⟩ := hb
  have seg : ∀ s ∈ fixedSegments, ¬ t.data <:+: s.data :=
    fun s hs => seg_absent (hsegB s hs)
  intro o ho
  simp only [praiseAskPool, List.mem_cons, List.not_mem_nil, or_false] at ho
  rcases ho with rfl | rfl
  · show ¬ t.data <:+:
      (("If there’s a feature you want next around `" ++ topic) ++
        "`, tell me.").data
    simp only [data_append]
    exact absent_concat3 _ _ _ (seg _ (by decide)) hT (seg _ (by decide))
      (boundary_singleton hbt (by decide)) (boundary_singleton hbt (by decide))
  · exact seg _ (by decide)

theorem questionMidPool_absent {t : String} (hb : BoundarySafe t)
    (hsegB : ∀ s ∈ fixedSegments, containsStr s t = false)
    (topic : String) (hT : ¬ t.data <:+: topic.data) :
    ∀ o ∈ questionMidPool topic, ¬ t.data <:+: o.data := by
  obtain ⟨htne, hsp, hcm, hdot, hbt⟩ := hb
  have seg : ∀ s ∈ fixedSegments, ¬ t.data <:+: s.data :=
    fun s hs => seg_absent (hsegB s hs)
  intro o ho
  simp only [questionMidPool, List.mem_cons, List.not_mem_nil, or_false] at ho
  rcases ho with rfl | rfl
  · show ¬ t.data <:+: (("On `" ++ topic) ++
      "`: I’ll double-check the repo and share the precise steps/entry point.").data
    simp only [data_append]
    exact absent_concat3 _ _ _ (seg _ (by decide)) hT (seg _ (by decide))
      (boundary_singleton hbt (by decide)) (boundary_singleton hbt (by decide))
  · show ¬ t.data <:+: (("Re `" ++ topic) ++
      "`: I’ll double-check the latest CatGame code/docs and answer precisely.").data
    simp only [data_append]
    exact absent_concat3 _ _ _ (seg _ (by decide)) hT (seg _ (by decide))
      (boundary_singleton hbt (by decide)) (boundary_singleton hbt (by decide))

theorem bugMidPool_absent {t : String} (hb : BoundarySafe t)
    (hsegB : ∀ s ∈ fixedSegments, containsStr s t = false)
    (topic : String) (hT : ¬ t.data <:+: topic.data) :
    ∀ o ∈ bugMidPool topic, ¬ t.data <:+: o.data := by
  obtain ⟨htne, hsp, hcm, hdot, hbt⟩ := hb
  have seg : ∀ s ∈ fixedSegments, ¬ t.data <:+: s.data :=
    fun s hs => seg_absent (hsegB s hs)
  intro o ho
  simp only [bugMidPool, List.mem_cons, List.not_mem_nil, or_false] at ho
  rcases ho with rfl | rfl
  · show ¬ t.data <:+:
      (("If you can share the minimal repro steps around `" ++ topic) ++
        "`, I can chase it down.").data
    simp only [data_append]
    exact absent_concat3 _ _ _ (seg _ (by decide)) hT (seg _ (by decide))
      (boundary_singleton hbt (by decide)) (boundary_singleton hbt (by decide))
  · exact seg _ (by decide)

theorem feedbackMidPool_absent {t : String} (hb : BoundarySafe t)
    (hsegB : ∀ s ∈ fixedSegments, containsStr s t = false)
    (topic : String) (hT : ¬ t.data <:+: topic.data) :
    ∀ o ∈ feedbackMidPool topic, ¬ t.data <:+: o.data := by
  obtain ⟨htne, hsp, hcm, hdot, hbt⟩ := hb
  have seg : ∀ s ∈ fixedSegments, ¬ t.data <:+: s.data :=
    fun s hs => seg_absent (hsegB s hs)
  intro o ho
  simp only [feedbackMidPool, List.mem_cons, List.not_mem_nil, or_false] at ho
  rcases ho with rfl | rfl
  · show ¬ t.data <:+: (("I can see why `" ++ topic) ++
      "` could feel rough right now.").data
    simp only [data_append]
    exact absent_concat3 _ _ _ (seg _ (by decide)) hT (seg _ (by decide))
      (boundary_singleton hbt (by decide)) (boundary_singleton hbt (by decide))
  · exact seg _ (by decide)

theorem neutralMidPool_absent {t : String} (hb : BoundarySafe t)
    (hsegB : ∀ s ∈ fixedSegments, containsStr s t = false)
    (topic : String) (hT : ¬ t.data <:+: topic.data) :
    ∀ o ∈ neutralMidPool topic, ¬ t.data <:+: o.data := by
  obtain ⟨htne, hsp, hcm, hdot, hbt⟩ := hb
  have seg : ∀ s ∈ fixedSegments, ¬ t.data <:+: s.data :=
    fun s hs => seg_absent (hsegB s hs)
  intro o ho
  simp only [neutralMidPool, List.mem_cons, List.not_mem_nil, or_false] at ho
  rcases ho with rfl | rfl
  · show ¬ t.data <:+: (("If you meant `" ++ topic) ++
      "` specifically, tell me what you’re aiming for and I’ll respond with details.").data
    simp only [data_append]
    exact absent_concat3 _ _ _ (seg _ (by decide)) hT (seg _ (by decide))
      (boundary_singleton hbt (by decide)) (boundary_singleton hbt (by decide))
  · exact seg _ (by decide)

theorem hostileClosePool_absent {t : String} (hb : BoundarySafe t)
    (hsegB : ∀ s ∈ fixedSegments, containsStr s t = false)
    (project : String) (hP : ¬ t.data <:+: project.data) :
    ∀ o ∈ hostileClosePool project, ¬ t.data <:+: o.data := by
  obtain ⟨htne, hsp, hcm, hdot, hbt⟩ := hb
  have seg : ∀ s ∈ fixedSegments, ¬ t.data <:+: s.data :=
    fun s hs => seg_absent (hsegB s hs)
  intro o ho
  simp only [hostileClosePool, List.mem_cons, List.not_mem_nil, or_false] at ho
  rcases ho with rfl | rfl
  · show ¬ t.data <:+:
      (("Either way, I’m going to keep building " ++ project) ++ ".").data
    simp only [data_append]
    exact absent_concat3 _ _ _ (seg _ (by decide)) hP (seg _ (by decide))
      (boundary_singleton hsp (by decide)) (boundary_singleton hdot (by decide))
  · exact seg _ (by decide)

theorem fixed_pool_pick_absent {t : String}
    (hsegB : ∀ s ∈ fixedSegments, containsStr s t = false)
    (pool : List String) (hsub : ∀ o ∈ pool, o ∈ fixedSegments)
    (hne : pool ≠ []) (seed : String) :
    ¬ t.data <:+: (_stable_pick pool seed).data :=
  seg_absent (hsegB _ (hsub _ (stable_pick_mem pool seed hne)))

theorem humor_absent {t : String} (htne : t.data ≠ [])
    (hsegB : ∀ s ∈ fixedSegments, containsStr s t = false)
    (c : Bool) (seed : String) :
    ¬ t.data <:+: (if c = true then _stable_pick humorPool seed else "").data := by
  cases c with
  | false =>
    simp only [Bool.false_eq_true, if_false]
    intro h
    exact htne (List.eq_nil_of_infix_nil h)
  | true =>
    simp only [if_pos]
    exact fixed_pool_pick_absent hsegB humorPool (by decide) (by decide) seed

theorem reference_hint_nil (intent : String) (kw : List String) :
    _reference_hint intent kw [] = "" := by
  unfold _reference_hint
  split_ifs <;> rfl

theorem if_ne_self_nil (l : List String) :
    (if ("" : String) ≠ "" then l else []) = [] := by
  simp

theorem absent_joinSp_of {t : List Char} (hne : t ≠ []) (hsp : (' ' : Char) ∉ t)
    (parts : List String) (h : ∀ p ∈ parts, ¬ t <:+: p.data) :
    ¬ t <:+: (joinSp parts).data := by
  unfold joinSp
  exact absent_join hne hsp _ (fun p hp => h p (List.mem_of_mem_filter hp))

theorem absent_joinSpAll_of {t : List Char} (hne : t ≠ []) (hsp : (' ' : Char) ∉ t)
    (parts : List String) (h : ∀ p ∈ parts, ¬ t <:+: p.data) :
    ¬ t <:+: (joinSpAll parts).data :=
  absent_join hne hsp parts h

theorem extract_keywords_wordish (text : String) (maxW : Nat) :
    ∀ w ∈ extract_keywords text maxW, ∀ c ∈ w.data, isWordCh c = true := by
  intro w hw c hc
  unfold extract_keywords at hw
  by_cases htext : text = ""
  · rw [if_pos htext] at hw
    simp at hw
  · rw [if_neg htext] at hw
    rcases keywordLoop_mem _ _ _ w hw with h | ⟨hmem, _⟩
    · simp at h
    · rcases List.mem_map.mp hmem with ⟨tok, htok, rfl⟩
      rcases List.mem_map.mp hc with ⟨d, hd, rfl⟩
      rw [isWordCh_lowerChar]
      obtain ⟨c0, run, rfl, hal, hrun, _⟩ := findWords_shape _ tok htok
      rcases List.mem_cons.mp hd with rfl | hd2
      · rw [isWordCh_iff]
        exact Or.inl hal
      · exact hrun d hd2

theorem extract_keywords_no_url (text : String) (maxW : Nat) :
    ∀ k ∈ extract_keywords text maxW,
      ¬ ("://" : String).data <:+: k.data := by
  intro k hk h
  have hcolon : (':' : Char) ∈ k.data := h.subset (by decide)
  have h2 := extract_keywords_wordish text maxW k hk ':' hcolon
  exact absurd h2 (by decide)

set_option maxHeartbeats 1600000 in
/-- The central no-echo lemma: with no project-search hint, a composed reply
cannot contain any string `t` that avoids the slot-boundary characters,
every fixed fragment, every extracted keyword, the author name and the
project name. -/
theorem generate_absent (ctx : CommentContext) (persona : String)
    (pd : Option String) (t : String) (hb : BoundarySafe t)
    (hsegB : ∀ s ∈ fixedSegments, containsStr s t = false)
    (hK : ∀ k ∈ extract_keywords ctx.comment_text 8, ¬ t.data <:+: k.data)
    (hA : ¬ t.data <:+: ctx.author_name.data)
    (hP : ¬ t.data <:+: (_project_name pd).data) :
    ¬ t.data <:+: (generate_reply_text ctx persona pd []).data := by
  obtain ⟨htne, hsp, hcm, hdot, hbt⟩ := hb
  have hT : ¬ t.data <:+:
      ((extract_keywords ctx.comment_text 8).headD (_project_name pd)).data := by
    cases hk : extract_keywords ctx.comment_text 8 with
    | nil => simpa using hP
    | cons k ks =>
      simp only [List.headD_cons]
      exact hK k (by rw [hk]; exact List.mem_cons_self k ks)
  have hOp : ∀ tone, ¬ t.data <:+:
      (_stable_pick (openersFor tone ctx.author_name (_project_name pd))
        (ctx.comment_text ++ "\n" ++ ctx.author_name ++ "\n" ++ ctx.comment_id)).data :=
    fun tone => openersFor_absent ⟨htne, hsp, hcm, hdot, hbt⟩ hsegB tone _ _ hA hP _
      (stable_pick_mem _ _ (openersFor_ne_nil tone _ _))
  rcases classify_intent_mem ctx.comment_text with h | h | h | h | h | h | h
  · -- empty
    simp only [generate_reply_text, h, eq_self_iff_true,
      show (("empty" : String) = "praise") = False from eq_false (by decide),
      show (("empty" : String) = "question") = False from eq_false (by decide),
      show (("empty" : String) = "bug") = False from eq_false (by decide),
      show (("empty" : String) = "feedback") = False from eq_false (by decide),
      show (("empty" : String) = "hostile") = False from eq_false (by decide),
      if_false, if_true]
    apply absent_pyStrip
    apply absent_joinSpAll_of htne hsp
    refine List.forall_mem_cons.mpr ⟨hOp _, ?_⟩
    refine List.forall_mem_cons.mpr ⟨fixed_pool_pick_absent hsegB emptyAskPool (by decide) (by decide) _, ?_⟩
    intro x hx
    exact absurd hx (List.not_mem_nil x)
  · -- question
    simp only [generate_reply_text, h, eq_self_iff_true,
      show (("question" : String) = "praise") = False from eq_false (by decide),
      if_false, if_true, reference_hint_nil, if_ne_self_nil,
      List.append_nil]
    apply absent_pyStrip
    apply absent_joinSp_of htne hsp
    refine List.forall_mem_cons.mpr ⟨hOp _, ?_⟩
    refine List.forall_mem_cons.mpr ⟨questionMidPool_absent ⟨htne, hsp, hcm, hdot, hbt⟩ hsegB _ hT _ (stable_pick_mem _ _ (by simp [questionMidPool])), ?_⟩
    refine List.forall_mem_cons.mpr ⟨fixed_pool_pick_absent hsegB questionAskPool (by decide) (by decide) _, ?_⟩
    refine List.forall_mem_cons.mpr ⟨humor_absent htne hsegB _ _, ?_⟩
    intro x hx
    exact absurd hx (List.not_mem_nil x)
  · -- bug
    simp only [generate_reply_text, h, eq_self_iff_true,
      show (("bug" : String) = "praise") = False from eq_false (by decide),
      show (("bug" : String) = "question") = False from eq_false (by decide),
      if_false, if_true, reference_hint_nil, if_ne_self_nil,
      List.append_nil]
    apply absent_pyStrip
    apply absent_joinSp_of htne hsp
    refine List.forall_mem_cons.mpr ⟨hOp _, ?_⟩
    refine List.forall_mem_cons.mpr ⟨bugMidPool_absent ⟨htne, hsp, hcm, hdot, hbt⟩ hsegB _ hT _ (stable_pick_mem _ _ (by simp [bugMidPool])), ?_⟩
    refine List.forall_mem_cons.mpr ⟨fixed_pool_pick_absent hsegB bugAskPool (by decide) (by decide) _, ?_⟩
    refine List.forall_mem_cons.mpr ⟨humor_absent htne hsegB _ _, ?_⟩
    intro x hx
    exact absurd hx (List.not_mem_nil x)
  · -- praise
    simp only [generate_reply_text, h, eq_self_iff_true,
      if_false, if_true, reference_hint_nil, if_ne_self_nil,
      List.append_nil]
    apply absent_pyStrip
    apply absent_joinSp_of htne hsp
    refine List.forall_mem_cons.mpr ⟨hOp _, ?_⟩
    refine List.forall_mem_cons.mpr ⟨fixed_pool_pick_absent hsegB praiseMidPool (by decide) (by decide) _, ?_⟩
    refine List.forall_mem_cons.mpr ⟨praiseAskPool_absent ⟨htne, hsp, hcm, hdot, hbt⟩ hsegB _ hT _ (stable_pick_mem _ _ (by simp [praiseAskPool])), ?_⟩
    refine List.forall_mem_cons.mpr ⟨humor_absent htne hsegB _ _, ?_⟩
    intro x hx
    exact absurd hx (List.not_mem_nil x)
  · -- hostile
    simp only [generate_reply_text, h, eq_self_iff_true,
      show (("hostile" : String) = "praise") = False from eq_false (by decide),
      show (("hostile" : String) = "question") = False from eq_false (by decide),
      show (("hostile" : String) = "bug") = False from eq_false (by decide),
      show (("hostile" : String) = "feedback") = False from eq_false (by decide),
      if_false, if_true]
    apply absent_pyStrip
    apply absent_joinSpAll_of htne hsp
    refine List.forall_mem_cons.mpr ⟨hOp _, ?_⟩
    refine List.forall_mem_cons.mpr ⟨fixed_pool_pick_absent hsegB hostileMidPool (by decide) (by decide) _, ?_⟩
    refine List.forall_mem_cons.mpr ⟨hostileClosePool_absent ⟨htne, hsp, hcm, hdot, hbt⟩ hsegB _ hP _ (stable_pick_mem _ _ (by simp [hostileClosePool])), ?_⟩
    intro x hx
    exact absurd hx (List.not_mem_nil x)
  · -- feedback
    simp only [generate_reply_text, h, eq_self_iff_true,
      show (("feedback" : String) = "praise") = False from eq_false (by decide),
      show (("feedback" : String) = "question") = False from eq_false (by decide),
      show (("feedback" : String) = "bug") = False from eq_false (by decide),
      if_false, if_true, reference_hint_nil, if_ne_self_nil,
      List.append_nil]
    apply absent_pyStrip
    apply absent_joinSp_of htne hsp
    refine List.forall_mem_cons.mpr ⟨hOp _, ?_⟩
    refine List.forall_mem_cons.mpr ⟨feedbackMidPool_absent ⟨htne, hsp, hcm, hdot, hbt⟩ hsegB _ hT _ (stable_pick_mem _ _ (by simp [feedbackMidPool])), ?_⟩
    refine List.forall_mem_cons.mpr ⟨fixed_pool_pick_absent hsegB feedbackAskPool (by decide) (by decide) _, ?_⟩
    refine List.forall_mem_cons.mpr ⟨humor_absent htne hsegB _ _, ?_⟩
    intro x hx
    exact absurd hx (List.not_mem_nil x)
  · -- neutral
    simp only [generate_reply_text, h, eq_self_iff_true,
      show (("neutral" : String) = "praise") = False from eq_false (by decide),
      show (("neutral" : String) = "question") = False from eq_false (by decide),
      show (("neutral" : String) = "bug") = False from eq_false (by decide),
      show (("neutral" : String) = "feedback") = False from eq_false (by decide),
      show (("neutral" : String) = "hostile") = False from eq_false (by decide),
      show (("neutral" : String) = "empty") = False from eq_false (by decide),
      if_false, if_true, reference_hint_nil, if_ne_self_nil,
      List.append_nil]
    apply absent_pyStrip
    apply absent_joinSp_of htne hsp
    refine List.forall_mem_cons.mpr ⟨hOp _, ?_⟩
    refine List.forall_mem_cons.mpr ⟨neutralMidPool_absent ⟨htne, hsp, hcm, hdot, hbt⟩ hsegB _ hT _ (stable_pick_mem _ _ (by simp [neutralMidPool])), ?_⟩
    refine List.forall_mem_cons.mpr ⟨humor_absent htne hsegB _ _, ?_⟩
    intro x hx
    exact absurd hx (List.not_mem_nil x)

theorem contains_addHash (h : String) (l : List String) :
    (addHash h l).contains h = true := by
  unfold addHash
  split_ifs with hc
  · exact hc
  · simp

/-- The final text of the dedup sequence: unchanged, a suffix variant, or
the ref-tag variant. -/
theorem ensure_unique_text_shape (s : ScopeSets) (candidate cid : String) :
    (ensure_unique s candidate cid).text = candidate ∨
    (∃ suf ∈ dedupSuffixes,
      (ensure_unique s candidate cid).text = pyStrip (candidate ++ suf)) ∨
    (ensure_unique s candidate cid).text = refTagCandidate candidate cid := by
  simp only [ensure_unique]
  cases hb : seenAll s (reply_hash candidate) with
  | false => simp
  | true =>
    simp only [Bool.not_true, Bool.false_eq_true, if_false]
    rcases hfind : findFirstIdx
        (fun c => !seenAll s (reply_hash c)) (suffixCandidateList candidate)
      with _ | r
    · cases hb2 : seenAll s (reply_hash (refTagCandidate candidate cid)) with
      | false => simp
      | true => simp
    · obtain ⟨i, c⟩ := r
      right; left
      have hm := (findFirstIdx_mem hfind).1
      simp only
      exact suffixCandidateList_mem_shape candidate c hm

/-! ### Helper lemmas: keyword extraction assembled -/

theorem extract_keywords_sublist (text : String) (maxW : Nat) :
    (extract_keywords text maxW).Sublist
      ((findWords (redact_urls text).data).map
        (fun w => (⟨lowerList w⟩ : String))) := by
  unfold extract_keywords
  split_ifs with h
  · exact List.nil_sublist _
  · obtain ⟨s, hs1, hs2⟩ := keywordLoop_order maxW
      ((findWords (redact_urls text).data).map
        (fun w => (⟨lowerList w⟩ : String))) []
    rw [hs1]
    exact hs2

theorem extract_keywords_nodup (text : String) (maxW : Nat) :
    (extract_keywords text maxW).Nodup := by
  unfold extract_keywords
  split_ifs with h
  · exact List.nodup_nil
  · exact keywordLoop_nodup maxW _ [] List.nodup_nil

theorem extract_keywords_len_le (text : String) (maxW : Nat) :
    (extract_keywords text maxW).length ≤ max 1 maxW := by
  unfold extract_keywords
  split_ifs with h
  · simp
  · cases maxW with
    | zero =>
      have h2 := (keywordLoop_length 0
        ((findWords (redact_urls text).data).map
          (fun w => (⟨lowerList w⟩ : String))) []).2 rfl
      simpa using h2
    | succ n =>
      have h2 := (keywordLoop_length (n + 1)
        ((findWords (redact_urls text).data).map
          (fun w => (⟨lowerList w⟩ : String))) []).1 (by simp)
      exact le_trans h2 (le_max_right 1 (n + 1))

theorem extract_keywords_filters (text : String) (maxW : Nat) :
    ∀ w ∈ extract_keywords text maxW,
      stopWords.contains w = false ∧ bannedWords.contains w = false ∧
        pyIsDigit w = false := by
  intro w hw
  unfold extract_keywords at hw
  split_ifs at hw with h
  · simp at hw
  · rcases keywordLoop_mem maxW _ [] w hw with h2 | ⟨_, h3⟩
    · simp at h2
    · exact h3

theorem extract_keywords_lower (text : String) (maxW : Nat) :
    ∀ w ∈ extract_keywords text maxW, lowerStr w = w := by
  intro w hw
  unfold extract_keywords at hw
  split_ifs at hw with h
  · simp at hw
  · rcases keywordLoop_mem maxW _ [] w hw with h2 | ⟨hmem, _⟩
    · simp at h2
    · rcases List.mem_map.mp hmem with ⟨tok, _, rfl⟩
      unfold lowerStr
      exact congrArg String.mk (lowerList_idem tok)

theorem extract_keywords_len3 (text : String) (maxW : Nat) :
    ∀ w ∈ extract_keywords text maxW, 3 ≤ w.data.length := by
  intro w hw
  unfold extract_keywords at hw
  split_ifs at hw with h
  · simp at hw
  · rcases keywordLoop_mem maxW _ [] w hw with h2 | ⟨hmem, _⟩
    · simp at h2
    · rcases List.mem_map.mp hmem with ⟨tok, htok, rfl⟩
      obtain ⟨c0, run, rfl, _, _, hlen⟩ := findWords_shape _ tok htok
      simp only [lowerList, List.length_map, List.length_cons]
      omega

theorem extract_keywords_not_banned (text : String) (maxW : Nat) :
    ∀ w ∈ extract_keywords text maxW, w ∉ bannedWords := by
  intro w hw hmem
  have h2 := (extract_keywords_filters text maxW w hw).2.1
  rw [List.contains_eq_any_beq] at h2
  have h3 : bannedWords.any (w == ·) = true :=
    List.any_eq_true.mpr ⟨w, hmem, by simp⟩
  rw [h3] at h2
  exact Bool.true_eq_false.mp h2

/-! ### The claims -/

/-- C1 (amended). No-echo, as the code guarantees it: (banned clause) for
every comment, persona and project directory, and every banned token `t`
that is not a substring of any extracted keyword, of the author name or of
the project name, the reply composed with no project-search hit does not
contain `t`; (URL clause) a reply composed with no project-search hit never
contains any string with the URL marker `://` in it, provided the author
name and project name are free of `://`; (dedup clause) the text produced
by the dedup sequence is the candidate itself, the candidate plus one of
the five fixed suffixes, or the candidate plus the `(ref <tag>)` tag derived
from the comment id alone — the retry machinery never incorporates comment
text.  (The unrestricted claim is false: a keyword that properly contains a
banned token is echoed, see the counterexample.) -/
theorem C1_no_echo_amended :
    (∀ (ctx : CommentContext) (persona : String) (pd : Option String)
      (t : String), t ∈ bannedWords →
      (∀ k ∈ extract_keywords ctx.comment_text 8, containsStr k t = false) →
      containsStr ctx.author_name t = false →
      containsStr (_project_name pd) t = false →
      containsStr (generate_reply_text ctx persona pd []) t = false) ∧
    (∀ (ctx : CommentContext) (persona : String) (pd : Option String)
      (u : String), containsStr u "://" = true →
      containsStr ctx.author_name "://" = false →
      containsStr (_project_name pd) "://" = false →
      containsStr (generate_reply_text ctx persona pd []) u = false) ∧
    (∀ (s : ScopeSets) (candidate cid : String),
      (ensure_unique s candidate cid).text = candidate ∨
      (∃ suf ∈ dedupSuffixes,
        (ensure_unique s candidate cid).text = pyStrip (candidate ++ suf)) ∨
      (ensure_unique s candidate cid).text = refTagCandidate candidate cid) := by
  refine ⟨?_, ?_, ensure_unique_text_shape⟩
  · intro ctx persona pd t ht hK hA hP
    rw [containsStr_false_iff]
    exact generate_absent ctx persona pd t (bannedWords_boundarySafe t ht)
      (fun s hs => fixedSegments_safe_banned s hs t ht)
      (fun k hk => (containsStr_false_iff k t).mp (hK k hk))
      ((containsStr_false_iff _ t).mp hA) ((containsStr_false_iff _ t).mp hP)
  · intro ctx persona pd u hu hA hP
    rw [containsStr_false_iff]
    intro hin
    have hmark : ("://" : String).data <:+: u.data := (containsStr_iff u _).mp hu
    have habs : ¬ ("://" : String).data <:+:
        (generate_reply_text ctx persona pd []).data :=
      generate_absent ctx persona pd "://" url_marker_boundarySafe
        fixedSegments_safe_url (extract_keywords_no_url ctx.comment_text 8)
        ((containsStr_false_iff _ _).mp hA) ((containsStr_false_iff _ _).mp hP)
    exact habs (hmark.trans hin)

/-- C1 counterexample: the claim as stated is false.  The comment
`"stupidhead?"` contains the banned token `"stupid"`, and the composed
reply echoes the keyword `stupidhead`, so it contains that exact token. -/
theorem C1_counterexample :
    containsStr "stupidhead?" "stupid" = true ∧ "stupid" ∈ bannedWords ∧
    containsStr
      (generate_reply_text ⟨"p1", "c1", "alice", "stupidhead?", none⟩ "" none [])
      "stupid" = true := by
  refine ⟨by decide, by decide, by decide⟩

/-- C1 witness: the amended no-echo theorem applied at a concrete comment. -/
theorem C1_no_echo_amended_witness :
    (∀ k ∈ extract_keywords "hello world?" 8, containsStr k "stupid" = false) ∧
    containsStr
      (generate_reply_text ⟨"p1", "c2", "alice", "hello world?", none⟩ "" none [])
      "stupid" = false :=
  ⟨by decide,
   C1_no_echo_amended.1 ⟨"p1", "c2", "alice", "hello world?", none⟩ "" none
     "stupid" (by decide) (by decide) (by decide) (by decide)⟩

/-- C2. When the hash of the candidate is absent from all six consulted
sets, the dedup sequence accepts the candidate unchanged with status
`unique_first_try`, and registers its hash into the in-run post, author and
global scope sets (leaving the persisted sets untouched) before the next
comment is processed. -/
theorem C2_first_try_accept (s : ScopeSets) (candidate cid : String)
    (h : seenAll s (reply_hash candidate) = false) :
    (ensure_unique s candidate cid).status = .uniqueFirstTry ∧
    (ensure_unique s candidate cid).text = candidate ∧
    (ensure_unique s candidate cid).hash = reply_hash candidate ∧
    (ensure_unique s candidate cid).sets.runPost =
      addHash (reply_hash candidate) s.runPost ∧
    (ensure_unique s candidate cid).sets.runAuthor =
      addHash (reply_hash candidate) s.runAuthor ∧
    (ensure_unique s candidate cid).sets.runGlobal =
      addHash (reply_hash candidate) s.runGlobal ∧
    (ensure_unique s candidate cid).sets.priorPost = s.priorPost ∧
    (ensure_unique s candidate cid).sets.priorAuthor = s.priorAuthor ∧
    (ensure_unique s candidate cid).sets.priorGlobal = s.priorGlobal ∧
    (ensure_unique s candidate cid).sets.runPost.contains
      (reply_hash candidate) = true ∧
    (ensure_unique s candidate cid).sets.runAuthor.contains
      (reply_hash candidate) = true ∧
    (ensure_unique s candidate cid).sets.runGlobal.contains
      (reply_hash candidate) = true := by
  rw [ensure_unique_first_try h]
  exact ⟨rfl, rfl, rfl, rfl, rfl, rfl, rfl, rfl, rfl,
    contains_addHash _ _, contains_addHash _ _, contains_addHash _ _⟩

/-- C2 witness: a fresh state accepts a concrete candidate first try. -/
theorem C2_first_try_accept_witness :
    seenAll emptySets (reply_hash "hello") = false ∧
    (ensure_unique emptySets "hello" "c7").status = .uniqueFirstTry ∧
    (ensure_unique emptySets "hello" "c7").text = "hello" :=
  ⟨rfl, (C2_first_try_accept emptySets "hello" "c7" rfl).1,
   (C2_first_try_accept emptySets "hello" "c7" rfl).2.1⟩

/-- C3. The dedup sequence hashes at most 10 + 1 retry candidates after the
initial collision (exactly 10 + 1 when it ends exhausted), and every one of
them is the candidate plus a fixed suffix or the candidate plus the
ref-tag. -/
theorem C3_bounded_retries (s : ScopeSets) (candidate cid : String) :
    (ensure_unique s candidate cid).retried.length ≤ 10 + 1 ∧
    ((ensure_unique s candidate cid).status = .exhausted →
      (ensure_unique s candidate cid).retried.length = 10 + 1) ∧
    (∀ c ∈ (ensure_unique s candidate cid).retried,
      (∃ suf ∈ dedupSuffixes, c = pyStrip (candidate ++ suf)) ∨
        c = refTagCandidate candidate cid) := by
  refine ⟨(ensure_unique_retried_spec s candidate cid).1, ?_,
    (ensure_unique_retried_spec s candidate cid).2⟩
  intro hex
  rw [ensure_unique_exhausted_sets hex]
  simp [suffixCandidateList_length]

/-- C3 witness: a concrete exhausted run performs exactly 10 + 1 retries. -/
theorem C3_bounded_retries_witness :
    (ensure_unique exhaustedScenarioSets "hi" "c").status = .exhausted ∧
    (ensure_unique exhaustedScenarioSets "hi" "c").retried.length = 10 + 1 :=
  ⟨by decide,
   (C3_bounded_retries exhaustedScenarioSets "hi" "c").2.1 (by decide)⟩

/-- C4. An exhausted dedup run changes nothing: the scope sets are returned
untouched, the per-comment step leaves state and responded-ids exactly as
they were, and a comment that was pending stays pending (so it is retried
on a future run). -/
theorem C4_exhausted_retryable (s : ScopeSets) (responded : List String)
    (candidate cid : String) (postSucceeds : Bool)
    (h : (ensure_unique s candidate cid).status = .exhausted) :
    (ensure_unique s candidate cid).sets = s ∧
    processComment s responded candidate cid postSucceeds =
      (s, responded, .exhausted) ∧
    (cid ∉ responded →
      cid ∉ (processComment s responded candidate cid postSucceeds).2.1) := by
  refine ⟨by rw [ensure_unique_exhausted_sets h], processComment_exhausted h, ?_⟩
  intro hnr
  rw [processComment_exhausted h]
  exact hnr

/-- C4 witness: the exhausted scenario leaves sets and responded ids as
they were. -/
theorem C4_exhausted_retryable_witness :
    (ensure_unique exhaustedScenarioSets "hi" "c").status = .exhausted ∧
    processComment exhaustedScenarioSets [] "hi" "c" true =
      (exhaustedScenarioSets, [], .exhausted) :=
  ⟨by decide,
   (C4_exhausted_retryable exhaustedScenarioSets [] "hi" "c" true (by decide)).2.1⟩

/-- C5 (amended). Composition is a pure function of the comment id, author
name, comment text, persona text, project directory and project-search
result: in particular it does not depend on the post id or the creation
timestamp.  (The claim as stated is false: the project directory also
enters the reply through the project name, see the counterexample.) -/
theorem C5_determinism_amended (pid₁ pid₂ cid author text : String)
    (ca₁ ca₂ : Option String) (persona : String) (pd : Option String)
    (hits : List SearchHit) :
    generate_reply_text ⟨pid₁, cid, author, text, ca₁⟩ persona pd hits =
      generate_reply_text ⟨pid₂, cid, author, text, ca₂⟩ persona pd hits := rfl

/-- C5 counterexample: two invocations with identical comment id, author
name, comment text, persona and (empty) search result, but different
project directories, compose different replies. -/
theorem C5_counterexample :
    generate_reply_text ⟨"p1", "c5", "bob", "amazing!", none⟩ "" (some "ProjA") [] ≠
      generate_reply_text ⟨"p1", "c5", "bob", "amazing!", none⟩ "" (some "ProjB") [] := by
  decide

/-- C6. The classifier is the spec's fixed-priority cascade (empty,
question, bug, praise, hostile, feedback, neutral; first match wins) on the
lowercased text; whitespace-only text is `empty`; non-blank text containing
`?` is `question` whatever else it contains; and classification is
case-insensitive. -/
theorem C6_classifier_cascade :
    (∀ text, classify_intent text = specClassify text) ∧
    (∀ text, (∀ c ∈ text.data, isSpaceCh c = true) →
      classify_intent text = "empty") ∧
    (∀ text, (∃ c ∈ text.data, isSpaceCh c = false) →
      containsStr text "?" = true → classify_intent text = "question") ∧
    (∀ text, classify_intent (lowerStr text) = classify_intent text) :=
  ⟨classify_eq_specClassify, classify_blank, classify_question,
   classify_lower_invariant⟩

/-- C6 witness: whitespace-only text and a `?`-text that also contains bug
and praise substrings. -/
theorem C6_classifier_cascade_witness :
    classify_intent "  " = "empty" ∧
    classify_intent "is there a bug? love it" = "question" :=
  ⟨C6_classifier_cascade.2.1 "  " (by decide),
   C6_classifier_cascade.2.2.1 "is there a bug? love it" (by decide) (by decide)⟩

/-- C7 (amended). Keyword extraction returns distinct lowercase tokens of
the URL-redacted text in first-seen order, each starting with an
alphanumeric character followed by at least two characters from
`[A-Za-z0-9_-]` (so three or more characters in all, but not a purely
alphanumeric run, since `_` and `-` are admitted), with stoplist words,
banned words and pure numerics excluded; the result has at most
`max 1 max_words` entries — at most `max_words` whenever `max_words ≥ 1`,
while `max_words = 0` can still yield one keyword, because the truncation
test runs only after an append.  The output never contains a banned
token. -/
theorem C7_keywords_amended (text : String) (max_words : Nat) :
    (extract_keywords text max_words).length ≤ max 1 max_words ∧
    (1 ≤ max_words →
      (extract_keywords text max_words).length ≤ max_words) ∧
    (extract_keywords text max_words).Nodup ∧
    (extract_keywords text max_words).Sublist
      ((findWords (redact_urls text).data).map
        (fun w => (⟨lowerList w⟩ : String))) ∧
    (∀ w ∈ extract_keywords text max_words,
      stopWords.contains w = false ∧ bannedWords.contains w = false ∧
      pyIsDigit w = false ∧ lowerStr w = w ∧ 3 ≤ w.data.length ∧
      (∀ c ∈ w.data, isWordCh c = true) ∧ w ∉ bannedWords) := by
  refine ⟨extract_keywords_len_le text max_words, ?_,
    extract_keywords_nodup text max_words,
    extract_keywords_sublist text max_words, ?_⟩
  · intro hmw
    have h1 := extract_keywords_len_le text max_words
    have h2 : max 1 max_words = max_words := by omega
    rwa [h2] at h1
  · intro w hw
    obtain ⟨h1, h2, h3⟩ := extract_keywords_filters text max_words w hw
    exact ⟨h1, h2, h3, extract_keywords_lower text max_words w hw,
      extract_keywords_len3 text max_words w hw,
      extract_keywords_wordish text max_words w hw,
      extract_keywords_not_banned text max_words w hw⟩

/-- C7 counterexample: the claim as stated is false twice over — the token
`foo-bar` is kept though it is not an alphanumeric run (it contains `-`),
and with `max_words = 0` the output length exceeds `max_words`. -/
theorem C7_counterexample :
    extract_keywords "foo-bar" 0 = ["foo-bar"] ∧
    ¬ (extract_keywords "foo-bar" 0).length ≤ 0 ∧
    ¬ (∀ w ∈ extract_keywords "foo-bar" 0, ∀ c ∈ w.data, isAlnumCh c = true) := by
  refine ⟨by decide, by decide, by decide⟩

/-- C7 witness: the amended theorem applied at a concrete text. -/
theorem C7_keywords_amended_witness :
    (extract_keywords "hello world" 10).length ≤ 10 ∧
    ("hello" ∈ extract_keywords "hello world" 10 ∧
      bannedWords.contains "hello" = false) :=
  ⟨(C7_keywords_amended "hello world" 10).2.1 (by decide),
   by decide,
   ((C7_keywords_amended "hello world" 10).2.2.2.2 "hello" (by decide)).2.1⟩

/-- C8 (amended). For an `empty`-intent comment the reply is a neutral
opener followed by one of the two short clarifying questions (not the
clarifying question alone, see the counterexample); and every composed
reply, whatever the intent, is non-empty. -/
theorem C8_reply_shape (ctx : CommentContext) (persona_text : String)
    (project_dir : Option String) (searchHits : List SearchHit) :
    (classify_intent ctx.comment_text = "empty" →
      ∃ o ∈ openersFor "neutral" ctx.author_name (_project_name project_dir),
        ∃ a ∈ emptyAskPool,
          generate_reply_text ctx persona_text project_dir searchHits =
            pyStrip (o ++ " " ++ a)) ∧
    generate_reply_text ctx persona_text project_dir searchHits ≠ "" :=
  ⟨generate_empty_shape ctx persona_text project_dir searchHits,
   generate_reply_nonempty ctx persona_text project_dir searchHits⟩

/-- C8 counterexample: the claim as stated is false — an empty comment's
reply is not just a clarifying question from the pool; it carries an opener
greeting as well. -/
theorem C8_counterexample :
    classify_intent "" = "empty" ∧
    generate_reply_text ⟨"p1", "c9", "bob", "", none⟩ "" none [] ∉ emptyAskPool := by
  refine ⟨by decide, by decide⟩

/-- C8 witness: the amended shape at a concrete empty comment. -/
theorem C8_reply_shape_witness :
    classify_intent "" = "empty" ∧
    (∃ o ∈ openersFor "neutral" "bob" (_project_name none), ∃ a ∈ emptyAskPool,
      generate_reply_text ⟨"p1", "c8", "bob", "", none⟩ "" none [] =
        pyStrip (o ++ " " ++ a)) :=
  ⟨by decide,
   (C8_reply_shape ⟨"p1", "c8", "bob", "", none⟩ "" none []).1 (by decide)⟩

/-- C9. `_stable_pick` is total: the empty pool yields `""` without ever
reducing modulo zero, and a non-empty pool always yields one of its own
elements. -/
theorem C9_stable_pick_total (options : List String) (seed : String) :
    (options = [] → _stable_pick options seed = "") ∧
    (options ≠ [] → _stable_pick options seed ∈ options) := by
  constructor
  · intro h
    subst h
    rfl
  · intro h
    exact stable_pick_mem options seed h

/-- C9 witness: both branches at concrete pools. -/
theorem C9_stable_pick_total_witness :
    _stable_pick [] "s" = "" ∧ _stable_pick ["a", "b"] "s" ∈ ["a", "b"] :=
  ⟨(C9_stable_pick_total [] "s").1 rfl,
   (C9_stable_pick_total ["a", "b"] "s").2 (by decide)⟩

/-- C10. The ten-attempt suffix loop is the five fixed suffixes twice: the
candidate list for attempts 1-10 is the five-attempt list repeated, attempt
`i + 6` builds exactly the candidate of attempt `i + 1`, and the dedup
sequence returns the same status, text, hash and scope sets as the variant
that tries the five suffixes only once. -/
theorem C10_suffix_cycle (s : ScopeSets) (candidate cid : String) :
    suffixCandidateList candidate =
      suffixCandidateList5 candidate ++ suffixCandidateList5 candidate ∧
    (∀ i : Nat, suffixCandidate candidate (i + 6) =
      suffixCandidate candidate (i + 1)) ∧
    (ensure_unique s candidate cid).status =
      (ensure_unique_five s candidate cid).status ∧
    (ensure_unique s candidate cid).text =
      (ensure_unique_five s candidate cid).text ∧
    (ensure_unique s candidate cid).hash =
      (ensure_unique_five s candidate cid).hash ∧
    (ensure_unique s candidate cid).sets =
      (ensure_unique_five s candidate cid).sets := by
  refine ⟨suffixCandidateList_eq_double candidate, ?_,
    (ensure_unique_eq_five s candidate cid).1,
    (ensure_unique_eq_five s candidate cid).2.1,
    (ensure_unique_eq_five s candidate cid).2.2.1,
    (ensure_unique_eq_five s candidate cid).2.2.2⟩
  intro i
  simp only [suffixCandidate]
  have h : (i + 6 - 1) % dedupSuffixes.length =
      (i + 1 - 1) % dedupSuffixes.length := by
    simp only [dedupSuffixes, List.length_cons, List.length_nil]
    omega
  rw [h]

end Moltbook
